import Mathlib

/-!
Shallow embedding of `src/mach/imports.rs` (Mach-O bind-opcode interpreter).

Conventions of the embedding:
* Rust `u8` / `u64` / `usize` values are `Nat`; wrapping arithmetic is explicit
  `% 2^64`; Rust's plain `+` on `u64` (a program error on overflow, panicking
  under debug assertions) is modelled by `checkedAdd`, which faults on overflow,
  in contrast to `wrapping_add` which is modelled by `wrappingAdd`.
* Rust panics (out-of-range slice indexing, arithmetic overflow) and returned
  decode errors are both modelled in the `Fault` type so that theorems can
  distinguish "the operation returned an error" from "the process crashed".
* Byte buffers are `List Nat`; entries of real buffers are < 256, and every
  consumer masks its byte with `&&&` against a mask below 256, so no global
  well-formedness hypothesis is needed.
* `symbol_name` is the raw byte content of the null-terminated string, as a
  `List Nat` (the `scroll` dependency additionally validates UTF-8; none of the
  verified claims depends on that validation).
-/

/-- Modulus of Rust `u64` arithmetic. -/
def U64LIMIT : Nat := 18446744073709551616

/-- Saturation bound of `usize::saturating_add` on a 64-bit target. -/
def USIZEMAX : Nat := 18446744073709551615

/-- Wrapping `u64` addition, modelling Rust `u64::wrapping_add`. -/
def wrappingAdd (a b : Nat) : Nat := (a + b) % U64LIMIT

/-- Faults of the interpreter: decode errors are returned as `error::Result`
errors by the source; the `panicIndex` and `panicOverflow` faults model Rust
panics (slice indexing out of range, and overflow of the plain `+` operator
under overflow checking), which are crashes rather than returned errors. -/
inductive Fault where
  | decodeError (offset : Nat)
  | panicIndex (index length : Nat)
  | panicOverflow
deriving DecidableEq

/-- Checked `u64` addition, modelling Rust's plain `+` on `u64` (which is a
program error on overflow and panics when overflow checks are enabled). -/
def checkedAdd (a b : Nat) : Except Fault Nat :=
  if a + b < U64LIMIT then .ok (a + b) else .error .panicOverflow

/-- Modelled from the spec (external collaborator, spec section 6): reading one
byte from the buffer at `offset`, failing past the buffer end. This models
`scroll`'s `gread` of a one-byte integer, as used for the opcode byte. -/
def readByte (data : List Nat) (offset : Nat) : Except Fault (Nat × Nat) :=
  match data[offset]? with
  | some b => .ok (b, offset + 1)
  | none => .error (.decodeError offset)

/-- Modelled from the spec (external collaborator, spec section 6): core loop of
ULEB128 decoding; returns the accumulated (unmasked) value and the number of
bytes consumed, or `none` if the buffer ends inside the encoding. Each byte
contributes its low 7 bits; a set bit 7 is the continuation bit. -/
def ulebBytes : List Nat → Option (Nat × Nat)
  | [] => none
  | b :: rest =>
    if b &&& 0x80 = 0 then some (b &&& 0x7F, 1)
    else
      match ulebBytes rest with
      | some (v, n) => some ((b &&& 0x7F) + 128 * v, n + 1)
      | none => none

/-- Modelled from the spec (external collaborator, spec section 6): ULEB128
read-and-advance (`scroll::Uleb128::read`), producing a `u64` and the advanced
cursor, failing on truncation. -/
def ulebRead (data : List Nat) (offset : Nat) : Except Fault (Nat × Nat) :=
  match ulebBytes (data.drop offset) with
  | some (v, n) => .ok (v % U64LIMIT, offset + n)
  | none => .error (.decodeError data.length)

/-- Reduction of a mathematical integer into the `i64` value range. -/
def toI64 (z : Int) : Int :=
  (z + 9223372036854775808) % 18446744073709551616 - 9223372036854775808

/-- Modelled from the spec (external collaborator, spec section 6): SLEB128
read-and-advance (`scroll::Sleb128::read`), producing an `i64` and the advanced
cursor, failing on truncation. The sign bit is bit 6 of the last byte, that is
bit `7*n - 1` of the accumulated value. -/
def slebRead (data : List Nat) (offset : Nat) : Except Fault (Int × Nat) :=
  match ulebBytes (data.drop offset) with
  | some (v, n) =>
    .ok (toI64 (if 2 ^ (7 * n - 1) ≤ v then (v : Int) - 2 ^ (7 * n) else (v : Int)), offset + n)
  | none => .error (.decodeError data.length)

/-- Modelled from the spec (external collaborator, spec section 6):
null-terminated string read at `offset` (`scroll`'s `pread` of `&str` with the
null delimiter): yields the bytes up to (excluding) the first zero byte at or
after `offset`, and fails if no terminator is found within the buffer (which
covers `offset` at or past the buffer end). -/
def strRead (data : List Nat) (offset : Nat) : Except Fault (List Nat) :=
  if (data.drop offset).contains 0 then
    .ok ((data.drop offset).takeWhile (fun b => b != 0))
  else .error (.decodeError offset)

/-- Modelled from the spec (spec section 4.2 opcode table; the repository's
`bind_opcodes` module is outside `src/`). -/
def BIND_OPCODE_MASK : Nat := 0xF0

/-- Modelled from the spec (spec section 4.2 opcode table). -/
def BIND_IMMEDIATE_MASK : Nat := 0x0F

/-- Modelled from the spec (spec section 4.2 opcode table). -/
def BIND_OPCODE_DONE : Nat := 0x00

/-- Modelled from the spec (spec section 4.2 opcode table). -/
def BIND_OPCODE_SET_DYLIB_ORDINAL_IMM : Nat := 0x10

/-- Modelled from the spec (spec section 4.2 opcode table). -/
def BIND_OPCODE_SET_DYLIB_ORDINAL_ULEB : Nat := 0x20

/-- Modelled from the spec (spec section 4.2 opcode table). -/
def BIND_OPCODE_SET_DYLIB_SPECIAL_IMM : Nat := 0x30

/-- Modelled from the spec (spec section 4.2 opcode table). -/
def BIND_OPCODE_SET_SYMBOL_TRAILING_FLAGS_IMM : Nat := 0x40

/-- Modelled from the spec (spec section 4.2 opcode table). -/
def BIND_OPCODE_SET_TYPE_IMM : Nat := 0x50

/-- Modelled from the spec (spec section 4.2 opcode table). -/
def BIND_OPCODE_SET_ADDEND_SLEB : Nat := 0x60

/-- Modelled from the spec (spec section 4.2 opcode table). -/
def BIND_OPCODE_SET_SEGMENT_AND_OFFSET_ULEB : Nat := 0x70

/-- Modelled from the spec (spec section 4.2 opcode table). -/
def BIND_OPCODE_ADD_ADDR_ULEB : Nat := 0x80

/-- Modelled from the spec (spec section 4.2 opcode table). -/
def BIND_OPCODE_DO_BIND : Nat := 0x90

/-- Modelled from the spec (spec section 4.2 opcode table). -/
def BIND_OPCODE_DO_BIND_ADD_ADDR_ULEB : Nat := 0xA0

/-- Modelled from the spec (spec section 4.2 opcode table). -/
def BIND_OPCODE_DO_BIND_ADD_ADDR_IMM_SCALED : Nat := 0xB0

/-- Modelled from the spec (spec section 4.2 opcode table). -/
def BIND_OPCODE_DO_BIND_ULEB_TIMES_SKIPPING_ULEB : Nat := 0xC0

/-- Modelled from the spec (spec section 3: default bind kind on the lazy pass
is the pointer type; constant of the `bind_opcodes` module, outside `src/`). -/
def BIND_TYPE_POINTER : Nat := 1

/-- Modelled from the spec (spec section 3: the weak-import bit of the symbol
flags; constant of the `bind_opcodes` module, outside `src/`). -/
def BIND_SYMBOL_FLAGS_WEAK_IMPORT : Nat := 0x1

/-- The two address bases of a segment used by `Import::new`
(`segment::Segment` fields `fileoff` and `vmaddr`, both `u64`). -/
structure Segment where
  fileoff : Nat
  vmaddr : Nat
deriving DecidableEq

/-- `BindInformation`: the mutable binding record accumulated between opcodes. -/
structure BindInformation where
  seg_index : Nat
  seg_offset : Nat
  bind_type : Nat
  symbol_library_ordinal : Nat
  symbol_name : List Nat
  symbol_flags : Nat
  addend : Int
  special_dylib : Nat
  is_lazy : Bool
deriving DecidableEq

/-- `BindInformation::default`. -/
def BindInformation.defaultInfo : BindInformation :=
  { seg_index := 0
    seg_offset := 0x0
    bind_type := 0x0
    special_dylib := 1
    symbol_library_ordinal := 0
    symbol_name := []
    symbol_flags := 0
    addend := 0
    is_lazy := false }

/-- `BindInformation::new`. -/
def BindInformation.new (is_lazy : Bool) : BindInformation :=
  if is_lazy then
    { BindInformation.defaultInfo with is_lazy := true, bind_type := BIND_TYPE_POINTER }
  else BindInformation.defaultInfo

/-- `BindInformation::is_weak`. -/
def BindInformation.is_weak (bi : BindInformation) : Bool :=
  bi.symbol_flags &&& BIND_SYMBOL_FLAGS_WEAK_IMPORT != 0

/-- `Import`: one emitted dynamically linked symbolic import. -/
structure Import where
  name : List Nat
  dylib : String
  is_lazy : Bool
  offset : Nat
  size : Nat
  address : Nat
  addend : Int
  is_weak : Bool
  start_of_sequence_offset : Nat
deriving DecidableEq

/-- `Import::new`: materialize an import from the binding record. The source
indexes `segments[bi.seg_index as usize]` and `libs[bi.symbol_library_ordinal
as usize]` with the panicking index operator and adds the segment bases with
plain `u64` `+`; those panics are modelled as faults, in source order. -/
def Import.new (bi : BindInformation) (libs : List String) (segments : List Segment)
    (start_of_sequence_offset : Nat) : Except Fault Import := do
  let segment ← match segments[bi.seg_index]? with
    | some s => Except.ok s
    | none => Except.error (.panicIndex bi.seg_index segments.length)
  let offset ← checkedAdd segment.fileoff bi.seg_offset
  let address ← checkedAdd segment.vmaddr bi.seg_offset
  let size := if bi.is_lazy then 8 else 0
  let dylib ← match libs[bi.symbol_library_ordinal]? with
    | some l => Except.ok l
    | none => Except.error (.panicIndex bi.symbol_library_ordinal libs.length)
  pure { name := bi.symbol_name
         dylib := dylib
         is_lazy := bi.is_lazy
         offset := offset
         size := size
         address := address
         addend := bi.addend
         is_weak := bi.is_weak
         start_of_sequence_offset := start_of_sequence_offset }

/-- A half-open byte range (`core::ops::Range<usize>`; `stop` is Rust's `end`). -/
structure BindRange where
  start : Nat
  stop : Nat
deriving DecidableEq

/-- The mutable locals of one pass of `BindInterpreter::run`: the binding
record, the cursor, the start-of-sequence marker and the output accumulator. -/
structure RunState where
  bind_info : BindInformation
  offset : Nat
  start_of_sequence : Nat
  imports : List Import
deriving DecidableEq

/-- The `for _i in 0..count` loop of `BIND_OPCODE_DO_BIND_ULEB_TIMES_SKIPPING_ULEB`:
emit an import from the current record, then advance `seg_offset` by the
precomputed `skip_plus_size` with `wrapping_add`, `count` times. -/
def doBindLoop (libs : List String) (segments : List Segment)
    (start_of_sequence : Nat) (skip_plus_size : Nat) :
    Nat → BindInformation → List Import → Except Fault (BindInformation × List Import)
  | 0, bi, acc => .ok (bi, acc)
  | n + 1, bi, acc => do
    let imp ← Import.new bi libs segments start_of_sequence
    doBindLoop libs segments start_of_sequence skip_plus_size n
      { bi with seg_offset := wrappingAdd bi.seg_offset skip_plus_size } (acc ++ [imp])

/-- One iteration of the `while offset < location.end` loop of
`BindInterpreter::run`: read the opcode byte, dispatch on its high nibble,
mirroring the source's `match` arm for arm (the final catch-all is a no-op). -/
def step (data : List Nat) (libs : List String) (segments : List Segment)
    (ctxSize : Nat) (is_lazy : Bool) (location : BindRange) (s : RunState) :
    Except Fault RunState := do
  let (opcode, offset) ← readByte data s.offset
  let op := opcode &&& BIND_OPCODE_MASK
  if op = BIND_OPCODE_DONE then
    pure { s with bind_info := BindInformation.new is_lazy, offset := offset,
                  start_of_sequence := offset - location.start }
  else if op = BIND_OPCODE_SET_DYLIB_ORDINAL_IMM then
    let bi := { s.bind_info with symbol_library_ordinal := opcode &&& BIND_IMMEDIATE_MASK }
    pure { s with bind_info := bi, offset := offset }
  else if op = BIND_OPCODE_SET_DYLIB_ORDINAL_ULEB then
    let (v, offset) ← ulebRead data offset
    let bi := { s.bind_info with symbol_library_ordinal := v % 256 }
    pure { s with bind_info := bi, offset := offset }
  else if op = BIND_OPCODE_SET_DYLIB_SPECIAL_IMM then
    let bi := { s.bind_info with special_dylib := opcode &&& BIND_IMMEDIATE_MASK }
    pure { s with bind_info := bi, offset := offset }
  else if op = BIND_OPCODE_SET_SYMBOL_TRAILING_FLAGS_IMM then
    let symbol_name ← strRead data offset
    let bi := { s.bind_info with symbol_name := symbol_name,
                                 symbol_flags := opcode &&& BIND_IMMEDIATE_MASK }
    pure { s with bind_info := bi, offset := offset + symbol_name.length + 1 }
  else if op = BIND_OPCODE_SET_TYPE_IMM then
    let bi := { s.bind_info with bind_type := opcode &&& BIND_IMMEDIATE_MASK }
    pure { s with bind_info := bi, offset := offset }
  else if op = BIND_OPCODE_SET_ADDEND_SLEB then
    let (addend, offset) ← slebRead data offset
    let bi := { s.bind_info with addend := addend }
    pure { s with bind_info := bi, offset := offset }
  else if op = BIND_OPCODE_SET_SEGMENT_AND_OFFSET_ULEB then
    let (seg_offset, offset) ← ulebRead data offset
    let bi := { s.bind_info with seg_index := opcode &&& BIND_IMMEDIATE_MASK,
                                 seg_offset := seg_offset }
    pure { s with bind_info := bi, offset := offset }
  else if op = BIND_OPCODE_ADD_ADDR_ULEB then
    let (addr, offset) ← ulebRead data offset
    let bi := { s.bind_info with seg_offset := wrappingAdd s.bind_info.seg_offset addr }
    pure { s with bind_info := bi, offset := offset }
  else if op = BIND_OPCODE_DO_BIND then
    let imp ← Import.new s.bind_info libs segments s.start_of_sequence
    let bi := { s.bind_info with seg_offset := wrappingAdd s.bind_info.seg_offset ctxSize }
    pure { s with imports := s.imports ++ [imp], bind_info := bi, offset := offset }
  else if op = BIND_OPCODE_DO_BIND_ADD_ADDR_ULEB then
    let imp ← Import.new s.bind_info libs segments s.start_of_sequence
    let (addr, offset) ← ulebRead data offset
    let seg_offset := wrappingAdd (wrappingAdd s.bind_info.seg_offset addr) ctxSize
    let bi := { s.bind_info with seg_offset := seg_offset }
    pure { s with imports := s.imports ++ [imp], bind_info := bi, offset := offset }
  else if op = BIND_OPCODE_DO_BIND_ADD_ADDR_IMM_SCALED then
    let imp ← Import.new s.bind_info libs segments s.start_of_sequence
    let scale := opcode &&& BIND_IMMEDIATE_MASK
    let seg_offset := wrappingAdd (wrappingAdd s.bind_info.seg_offset (scale * ctxSize)) ctxSize
    let bi := { s.bind_info with seg_offset := seg_offset }
    pure { s with imports := s.imports ++ [imp], bind_info := bi, offset := offset }
  else if op = BIND_OPCODE_DO_BIND_ULEB_TIMES_SKIPPING_ULEB then
    let (count, offset) ← ulebRead data offset
    let (skip, offset) ← ulebRead data offset
    let skip_plus_size ← checkedAdd skip ctxSize
    let (bi, imps) ←
      doBindLoop libs segments s.start_of_sequence skip_plus_size count s.bind_info s.imports
    pure { s with bind_info := bi, imports := imps, offset := offset }
  else
    pure { s with offset := offset }

/-- Fuel-indexed unfolding of the `while offset < location.end` loop. Every
iteration consumes at least one byte of the range, so fuel
`location.stop - location.start` is always sufficient from a cursor at
`location.start` (the fuel-exhaustion branch, kept total, is unreachable from
`run`; see the fuel-monotonicity theorem below). -/
def runFuel (data : List Nat) (libs : List String) (segments : List Segment)
    (ctxSize : Nat) (is_lazy : Bool) (location : BindRange) :
    Nat → RunState → Except Fault RunState
  | 0, s => if s.offset < location.stop then .error (.decodeError s.offset) else .ok s
  | fuel + 1, s =>
    if s.offset < location.stop then
      match step data libs segments ctxSize is_lazy location s with
      | .error e => .error e
      | .ok s2 => runFuel data libs segments ctxSize is_lazy location fuel s2
    else .ok s

/-- `BindInterpreter::run`: one pass (eager or lazy) over `location`, appending
to the `imports` accumulator passed by the caller. -/
def run (data : List Nat) (libs : List String) (segments : List Segment)
    (ctxSize : Nat) (is_lazy : Bool) (location : BindRange) (imports : List Import) :
    Except Fault (List Import) :=
  match runFuel data libs segments ctxSize is_lazy location (location.stop - location.start)
      { bind_info := BindInformation.new is_lazy
        offset := location.start
        start_of_sequence := 0
        imports := imports } with
  | .error e => .error e
  | .ok s => .ok s.imports

/-- `BindInterpreter`: the opcode byte buffer and the two pass ranges. -/
structure BindInterpreter where
  data : List Nat
  location : BindRange
  lazy_location : BindRange
deriving DecidableEq

/-- The four stream-boundary fields of `load_command::DyldInfoCommand` used by
`BindInterpreter::new`. -/
structure DyldInfoCommand where
  bind_off : Nat
  bind_size : Nat
  lazy_bind_off : Nat
  lazy_bind_size : Nat
deriving DecidableEq

/-- `BindInterpreter::new`: compute the two half-open ranges, saturating
`start + size` at `usize::MAX`. -/
def BindInterpreter.new (bytes : List Nat) (command : DyldInfoCommand) : BindInterpreter :=
  { data := bytes
    location := { start := command.bind_off
                  stop := min (command.bind_off + command.bind_size) USIZEMAX }
    lazy_location := { start := command.lazy_bind_off
                       stop := min (command.lazy_bind_off + command.lazy_bind_size) USIZEMAX } }

/-- `BindInterpreter::imports`: run the eager pass then the lazy pass over one
output list; a failing pass fails the whole operation. -/
def BindInterpreter.imports (self : BindInterpreter) (libs : List String)
    (segments : List Segment) (ctxSize : Nat) : Except Fault (List Import) :=
  match run self.data libs segments ctxSize false self.location [] with
  | .error e => .error e
  | .ok l1 =>
    match run self.data libs segments ctxSize true self.lazy_location l1 with
    | .error e => .error e
    | .ok l2 => .ok l2

/-- C1: the claim says an out-of-range `library_ordinal` makes import
extraction return an index-out-of-range error instead of crashing. On the
stream `SET_DYLIB_ORDINAL_IMM(5); DO_BIND` with a one-entry library table and a
one-entry segment table, `Import::new` evaluates `libs[5]` with the panicking
index operator, so the operation panics (modelled as the `panicIndex` fault)
rather than returning an error value: the code lacks the hardening the spec
requires. -/
theorem c1_library_ordinal_out_of_range_panics :
    BindInterpreter.imports ⟨[0x15, 0x90], ⟨0, 2⟩, ⟨2, 2⟩⟩ ["a"] [⟨0, 0⟩] 8
      = .error (.panicIndex 5 1) := by rfl

/-- C2 counterexample: a `SET_SEGMENT_AND_OFFSET_ULEB` whose ULEB128 operand
crosses the declared range end (eager range is bytes 0..2, operand occupies
bytes 1..3) does not fail: the reads are only checked against the data buffer
end, so the whole extraction succeeds with an empty import list, refuting the
claim that crossing the range end yields a decode error. -/
theorem c2_crossing_range_end_succeeds :
    BindInterpreter.imports ⟨[0x70, 0x80, 0x01], ⟨0, 2⟩, ⟨2, 2⟩⟩ ["a"] [⟨0, 0⟩] 8
      = .ok [] := by rfl

/-- C3 counterexample: on the eager stream `DONE; DO_BIND` the DONE opcode sits
at byte offset 0, but the next-emitted import records
`start_of_sequence_offset = 1` (the offset just past the DONE byte), refuting
the claim that it equals the DONE opcode's own offset 0. -/
theorem c3_sos_is_offset_after_done :
    run [0x00, 0x90] ["a"] [⟨0, 0⟩] 8 false ⟨0, 2⟩ []
        = .ok [{ name := [], dylib := "a", is_lazy := false, offset := 0, size := 0,
                 address := 0, addend := 0, is_weak := false,
                 start_of_sequence_offset := 1 }]
      ∧ (1 : Nat) ≠ 0 := ⟨rfl, by decide⟩

/-- C4: the claim says the advance of the repetition opcode wraps and never
faults for every decoded `skip` up to `2^64 - 1`. The source computes
`skip + ctx.size()` with the plain overflow-checked `+` (unlike the
`wrapping_add` used for every `segment_offset` update), so a
`DO_BIND_ULEB_TIMES_SKIPPING_ULEB` with `skip = 2^64 - 1` (ULEB128 bytes
`FF x9, 01`) and pointer size 8 overflows and faults instead of wrapping. -/
theorem c4_skip_plus_size_overflow_faults :
    run [0xC0, 0x01, 0xFF, 0xFF, 0xFF, 0xFF, 0xFF, 0xFF, 0xFF, 0xFF, 0xFF, 0x01]
        ["a"] [⟨0, 0⟩] 8 false ⟨0, 12⟩ [] = .error .panicOverflow := by rfl

/-- C5: the eager pass over `SET_SYMBOL_TRAILING_FLAGS_IMM("foo", flags=0);
SET_SEGMENT_AND_OFFSET_ULEB(segment=0, offset=0x10); DO_BIND; DONE` against a
one-segment table with file-offset base 0x1000 and virtual-address base 0x4000
returns exactly one import named "foo" (bytes `66 6F 6F`), with offset 0x1010,
address 0x4010, not lazy and not weak. -/
theorem c5_eager_stream_single_import :
    run [0x40, 0x66, 0x6F, 0x6F, 0x00, 0x70, 0x10, 0x90, 0x00]
        ["lib"] [⟨0x1000, 0x4000⟩] 8 false ⟨0, 9⟩ []
      = .ok [{ name := [0x66, 0x6F, 0x6F], dylib := "lib", is_lazy := false,
               offset := 0x1010, size := 0, address := 0x4010, addend := 0,
               is_weak := false, start_of_sequence_offset := 0 }] := by rfl

/-- The list of imports emitted by a successful, wrap-free run of the
repetition loop of `BIND_OPCODE_DO_BIND_ULEB_TIMES_SKIPPING_ULEB`: the `j`-th
emitted import binds at `segment_offset + j * skip_plus_size` (statement-side
companion of `doBindLoop`). -/
def repeatedImports (bi : BindInformation) (seg : Segment) (d : String)
    (sos sps count : Nat) : List Import :=
  (List.range count).map fun j =>
    { name := bi.symbol_name
      dylib := d
      is_lazy := bi.is_lazy
      offset := seg.fileoff + (bi.seg_offset + j * sps)
      size := if bi.is_lazy then 8 else 0
      address := seg.vmaddr + (bi.seg_offset + j * sps)
      addend := bi.addend
      is_weak := bi.is_weak
      start_of_sequence_offset := sos }

/-- Two binding records that agree on every field except `bind_type` and
`special_dylib` (the two fields never read when materializing an `Import`). -/
def RecordEquiv (bi1 bi2 : BindInformation) : Prop :=
  bi1.seg_index = bi2.seg_index ∧ bi1.seg_offset = bi2.seg_offset ∧
  bi1.symbol_library_ordinal = bi2.symbol_library_ordinal ∧
  bi1.symbol_name = bi2.symbol_name ∧ bi1.symbol_flags = bi2.symbol_flags ∧
  bi1.addend = bi2.addend ∧ bi1.is_lazy = bi2.is_lazy

/-- Relation between the outcomes of two pass runs: both fail with the same
fault, or both succeed with the same cursor, marker and emitted imports, the
records differing at most in `bind_type` and `special_dylib`. -/
def ResultEquiv : Except Fault RunState → Except Fault RunState → Prop
  | .error e1, .error e2 => e1 = e2
  | .ok s1, .ok s2 =>
    RecordEquiv s1.bind_info s2.bind_info ∧ s1.offset = s2.offset ∧
    s1.start_of_sequence = s2.start_of_sequence ∧ s1.imports = s2.imports
  | _, _ => False

/-- The cursor position after one loop iteration at `off`, determined by the
data alone (`none` when a required read fails): one byte for the opcode, plus
the operand bytes the dispatched arm decodes. -/
def consume (data : List Nat) (off : Nat) : Option Nat :=
  match data[off]? with
  | none => none
  | some b =>
    let op := b &&& BIND_OPCODE_MASK
    if op = BIND_OPCODE_SET_DYLIB_ORDINAL_ULEB ∨ op = BIND_OPCODE_SET_ADDEND_SLEB ∨
       op = BIND_OPCODE_SET_SEGMENT_AND_OFFSET_ULEB ∨ op = BIND_OPCODE_ADD_ADDR_ULEB ∨
       op = BIND_OPCODE_DO_BIND_ADD_ADDR_ULEB then
      match ulebBytes (data.drop (off + 1)) with
      | some p => some (off + 1 + p.2)
      | none => none
    else if op = BIND_OPCODE_SET_SYMBOL_TRAILING_FLAGS_IMM then
      match strRead data (off + 1) with
      | .ok nm => some (off + 1 + nm.length + 1)
      | .error _ => none
    else if op = BIND_OPCODE_DO_BIND_ULEB_TIMES_SKIPPING_ULEB then
      match ulebBytes (data.drop (off + 1)) with
      | some p1 =>
        match ulebBytes (data.drop (off + 1 + p1.2)) with
        | some p2 => some (off + 1 + p1.2 + p2.2)
        | none => none
      | none => none
    else some (off + 1)

/-- Lockstep equivalence of two opcode streams over the byte range ending at
`stop`, starting from a given cursor: the streams decode in parallel, and may
differ only in the low nibble (the carried immediate) of opcode bytes whose
shared high nibble is `SET_DYLIB_SPECIAL_IMM` or `SET_TYPE_IMM`. This is the
formal reading of two well-formed streams differing only in the values carried
by those two opcodes. -/
inductive StreamEquiv (data1 data2 : List Nat) (stop : Nat) : Nat → Prop where
  | done (off : Nat) : stop ≤ off → StreamEquiv data1 data2 stop off
  | immDiff (off b1 b2 : Nat) : off < stop →
      data1[off]? = some b1 → data2[off]? = some b2 →
      b1 &&& BIND_OPCODE_MASK = b2 &&& BIND_OPCODE_MASK →
      (b1 &&& BIND_OPCODE_MASK = BIND_OPCODE_SET_DYLIB_SPECIAL_IMM ∨
       b1 &&& BIND_OPCODE_MASK = BIND_OPCODE_SET_TYPE_IMM) →
      StreamEquiv data1 data2 stop (off + 1) → StreamEquiv data1 data2 stop off
  | sameChunk (off off2 : Nat) : off < stop →
      consume data1 off = some off2 →
      (∀ p, off ≤ p → p < off2 → data1[p]? = data2[p]?) →
      StreamEquiv data1 data2 stop off2 → StreamEquiv data1 data2 stop off

/-- Field characterization of a successful `Import::new`: the emitted import
copies the record's name, laziness, addend and weak bit, computes the size
from laziness, and is stamped with the given start-of-sequence offset. -/
theorem Import.new_ok_fields {bi : BindInformation} {libs : List String}
    {segments : List Segment} {sos : Nat} {imp : Import}
    (h : Import.new bi libs segments sos = .ok imp) :
    imp.name = bi.symbol_name ∧ imp.is_lazy = bi.is_lazy ∧
    imp.size = (if bi.is_lazy then 8 else 0) ∧ imp.addend = bi.addend ∧
    imp.is_weak = bi.is_weak ∧ imp.start_of_sequence_offset = sos := by
  unfold Import.new checkedAdd at h
  simp only [bind, Except.bind, pure, Except.pure] at h
  repeat' split at h
  all_goals simp_all
  all_goals (obtain rfl : _ = imp := h; simp)

/-- The repetition loop only appends imports built by `Import::new` from
records sharing the incoming record's laziness. -/
theorem doBindLoop_lazy_spec {libs : List String} {segments : List Segment} {sos sps : Nat} :
    ∀ {n : Nat} {bi : BindInformation} {acc : List Import} {bi2 : BindInformation}
      {out : List Import},
      doBindLoop libs segments sos sps n bi acc = .ok (bi2, out) →
      bi2.is_lazy = bi.is_lazy ∧ ∃ l, out = acc ++ l ∧
        ∀ imp ∈ l, imp.is_lazy = bi.is_lazy ∧ imp.size = (if bi.is_lazy then 8 else 0) := by
  intro n
  induction n with
  | zero =>
    intro bi acc bi2 out h
    unfold doBindLoop at h
    obtain ⟨rfl, rfl⟩ : bi = bi2 ∧ acc = out := by
      have := Except.ok.inj h; exact ⟨congrArg Prod.fst this, congrArg Prod.snd this⟩
    exact ⟨rfl, [], by simp⟩
  | succ n ih =>
    intro bi acc bi2 out h
    unfold doBindLoop at h
    simp only [bind, Except.bind] at h
    cases himp : Import.new bi libs segments sos with
    | error e => rw [himp] at h; cases h
    | ok imp =>
      rw [himp] at h
      obtain ⟨hlazy, l, hout, hl⟩ := ih h
      refine ⟨by simpa using hlazy, imp :: l, by simpa using hout, ?_⟩
      intro i hi
      rcases List.mem_cons.mp hi with rfl | hi
      · obtain ⟨-, h2, h3, -⟩ := Import.new_ok_fields himp
        exact ⟨h2, h3⟩
      · simpa using hl i hi

/-- A fresh record carries the laziness of the pass that created it. -/
theorem BindInformation.new_is_lazy (b : Bool) : (BindInformation.new b).is_lazy = b := by
  cases b <;> rfl

/-- One loop iteration preserves the record's laziness and only appends
imports whose laziness and size agree with the pass's laziness. -/
theorem step_emitted_spec {data : List Nat} {libs : List String} {segments : List Segment}
    {ctxSize : Nat} {is_lazy : Bool} {location : BindRange} {s s2 : RunState}
    (hinv : s.bind_info.is_lazy = is_lazy)
    (hstep : step data libs segments ctxSize is_lazy location s = .ok s2) :
    s2.bind_info.is_lazy = is_lazy ∧
    ∃ l, s2.imports = s.imports ++ l ∧
      ∀ imp ∈ l, imp.is_lazy = is_lazy ∧ imp.size = (if is_lazy then 8 else 0) := by
  unfold step readByte at hstep
  cases hb : data[s.offset]? with
  | none => rw [hb] at hstep; cases hstep
  | some b =>
    rw [hb] at hstep
    simp only [bind, Except.bind, pure, Except.pure] at hstep
    by_cases h0 : b &&& BIND_OPCODE_MASK = BIND_OPCODE_DONE
    · rw [if_pos h0] at hstep
      obtain rfl : _ = s2 := Except.ok.inj hstep
      exact ⟨BindInformation.new_is_lazy is_lazy, [], by simp, fun i hi => by simp at hi⟩
    rw [if_neg h0] at hstep
    by_cases h1 : b &&& BIND_OPCODE_MASK = BIND_OPCODE_SET_DYLIB_ORDINAL_IMM
    · rw [if_pos h1] at hstep
      obtain rfl : _ = s2 := Except.ok.inj hstep
      exact ⟨hinv, [], by simp, fun i hi => by simp at hi⟩
    rw [if_neg h1] at hstep
    by_cases h2 : b &&& BIND_OPCODE_MASK = BIND_OPCODE_SET_DYLIB_ORDINAL_ULEB
    · rw [if_pos h2] at hstep
      cases hu : ulebRead data (s.offset + 1) with
      | error e => simp only [hu] at hstep; cases hstep
      | ok p =>
        simp only [hu] at hstep
        obtain rfl : _ = s2 := Except.ok.inj hstep
        exact ⟨hinv, [], by simp, fun i hi => by simp at hi⟩
    rw [if_neg h2] at hstep
    by_cases h3 : b &&& BIND_OPCODE_MASK = BIND_OPCODE_SET_DYLIB_SPECIAL_IMM
    · rw [if_pos h3] at hstep
      obtain rfl : _ = s2 := Except.ok.inj hstep
      exact ⟨hinv, [], by simp, fun i hi => by simp at hi⟩
    rw [if_neg h3] at hstep
    by_cases h4 : b &&& BIND_OPCODE_MASK = BIND_OPCODE_SET_SYMBOL_TRAILING_FLAGS_IMM
    · rw [if_pos h4] at hstep
      cases hu : strRead data (s.offset + 1) with
      | error e => simp only [hu] at hstep; cases hstep
      | ok nm =>
        simp only [hu] at hstep
        obtain rfl : _ = s2 := Except.ok.inj hstep
        exact ⟨hinv, [], by simp, fun i hi => by simp at hi⟩
    rw [if_neg h4] at hstep
    by_cases h5 : b &&& BIND_OPCODE_MASK = BIND_OPCODE_SET_TYPE_IMM
    · rw [if_pos h5] at hstep
      obtain rfl : _ = s2 := Except.ok.inj hstep
      exact ⟨hinv, [], by simp, fun i hi => by simp at hi⟩
    rw [if_neg h5] at hstep
    by_cases h6 : b &&& BIND_OPCODE_MASK = BIND_OPCODE_SET_ADDEND_SLEB
    · rw [if_pos h6] at hstep
      cases hu : slebRead data (s.offset + 1) with
      | error e => simp only [hu] at hstep; cases hstep
      | ok p =>
        simp only [hu] at hstep
        obtain rfl : _ = s2 := Except.ok.inj hstep
        exact ⟨hinv, [], by simp, fun i hi => by simp at hi⟩
    rw [if_neg h6] at hstep
    by_cases h7 : b &&& BIND_OPCODE_MASK = BIND_OPCODE_SET_SEGMENT_AND_OFFSET_ULEB
    · rw [if_pos h7] at hstep
      cases hu : ulebRead data (s.offset + 1) with
      | error e => simp only [hu] at hstep; cases hstep
      | ok p =>
        simp only [hu] at hstep
        obtain rfl : _ = s2 := Except.ok.inj hstep
        exact ⟨hinv, [], by simp, fun i hi => by simp at hi⟩
    rw [if_neg h7] at hstep
    by_cases h8 : b &&& BIND_OPCODE_MASK = BIND_OPCODE_ADD_ADDR_ULEB
    · rw [if_pos h8] at hstep
      cases hu : ulebRead data (s.offset + 1) with
      | error e => simp only [hu] at hstep; cases hstep
      | ok p =>
        simp only [hu] at hstep
        obtain rfl : _ = s2 := Except.ok.inj hstep
        exact ⟨hinv, [], by simp, fun i hi => by simp at hi⟩
    rw [if_neg h8] at hstep
    by_cases h9 : b &&& BIND_OPCODE_MASK = BIND_OPCODE_DO_BIND
    · rw [if_pos h9] at hstep
      cases himp : Import.new s.bind_info libs segments s.start_of_sequence with
      | error e => simp only [himp] at hstep; cases hstep
      | ok imp =>
        simp only [himp] at hstep
        obtain rfl : _ = s2 := Except.ok.inj hstep
        refine ⟨hinv, [imp], by simp, ?_⟩
        intro i hi
        rcases List.mem_singleton.mp hi with rfl
        obtain ⟨-, hl2, hl3, -⟩ := Import.new_ok_fields himp
        rw [hl2, hl3, hinv]
        exact ⟨rfl, rfl⟩
    rw [if_neg h9] at hstep
    by_cases h10 : b &&& BIND_OPCODE_MASK = BIND_OPCODE_DO_BIND_ADD_ADDR_ULEB
    · rw [if_pos h10] at hstep
      cases himp : Import.new s.bind_info libs segments s.start_of_sequence with
      | error e => simp only [himp] at hstep; cases hstep
      | ok imp =>
        simp only [himp] at hstep
        cases hu : ulebRead data (s.offset + 1) with
        | error e => simp only [hu] at hstep; cases hstep
        | ok p =>
          simp only [hu] at hstep
          obtain rfl : _ = s2 := Except.ok.inj hstep
          refine ⟨hinv, [imp], by simp, ?_⟩
          intro i hi
          rcases List.mem_singleton.mp hi with rfl
          obtain ⟨-, hl2, hl3, -⟩ := Import.new_ok_fields himp
          rw [hl2, hl3, hinv]
          exact ⟨rfl, rfl⟩
    rw [if_neg h10] at hstep
    by_cases h11 : b &&& BIND_OPCODE_MASK = BIND_OPCODE_DO_BIND_ADD_ADDR_IMM_SCALED
    · rw [if_pos h11] at hstep
      cases himp : Import.new s.bind_info libs segments s.start_of_sequence with
      | error e => simp only [himp] at hstep; cases hstep
      | ok imp =>
        simp only [himp] at hstep
        obtain rfl : _ = s2 := Except.ok.inj hstep
        refine ⟨hinv, [imp], by simp, ?_⟩
        intro i hi
        rcases List.mem_singleton.mp hi with rfl
        obtain ⟨-, hl2, hl3, -⟩ := Import.new_ok_fields himp
        rw [hl2, hl3, hinv]
        exact ⟨rfl, rfl⟩
    rw [if_neg h11] at hstep
    by_cases h12 : b &&& BIND_OPCODE_MASK = BIND_OPCODE_DO_BIND_ULEB_TIMES_SKIPPING_ULEB
    · rw [if_pos h12] at hstep
      cases hu1 : ulebRead data (s.offset + 1) with
      | error e => simp only [hu1] at hstep; cases hstep
      | ok p1 =>
        simp only [hu1] at hstep
        cases hu2 : ulebRead data p1.2 with
        | error e => simp only [hu2] at hstep; cases hstep
        | ok p2 =>
          simp only [hu2] at hstep
          cases hc : checkedAdd p2.1 ctxSize with
          | error e => simp only [hc] at hstep; cases hstep
          | ok sps =>
            simp only [hc] at hstep
            cases hl : doBindLoop libs segments s.start_of_sequence sps p1.1
                s.bind_info s.imports with
            | error e => simp only [hl] at hstep; cases hstep
            | ok q =>
              simp only [hl] at hstep
              obtain rfl : _ = s2 := Except.ok.inj hstep
              obtain ⟨hlz, l, hout, hall⟩ := doBindLoop_lazy_spec hl
              refine ⟨by simpa [hinv] using hlz, l, by simpa using hout, ?_⟩
              intro i hi
              obtain ⟨ha, hb2⟩ := hall i hi
              rw [ha, hb2, hinv]
              exact ⟨rfl, rfl⟩
    rw [if_neg h12] at hstep
    obtain rfl : _ = s2 := Except.ok.inj hstep
    exact ⟨hinv, [], by simp, fun i hi => by simp at hi⟩

/-- Invariant of a whole pass: the record's laziness never changes and every
appended import has the pass's laziness and the corresponding size. -/
theorem runFuel_emitted_spec {data : List Nat} {libs : List String} {segments : List Segment}
    {ctxSize : Nat} {is_lazy : Bool} {location : BindRange} :
    ∀ {fuel : Nat} {s s2 : RunState}, s.bind_info.is_lazy = is_lazy →
      runFuel data libs segments ctxSize is_lazy location fuel s = .ok s2 →
      s2.bind_info.is_lazy = is_lazy ∧ ∃ l, s2.imports = s.imports ++ l ∧
        ∀ imp ∈ l, imp.is_lazy = is_lazy ∧ imp.size = (if is_lazy then 8 else 0) := by
  intro fuel
  induction fuel with
  | zero =>
    intro s s2 hinv h
    unfold runFuel at h
    split at h
    · cases h
    · obtain rfl : _ = s2 := Except.ok.inj h
      exact ⟨hinv, [], by simp, fun i hi => by simp at hi⟩
  | succ fuel ih =>
    intro s s2 hinv h
    unfold runFuel at h
    split at h
    · cases hstep : step data libs segments ctxSize is_lazy location s with
      | error e => rw [hstep] at h; cases h
      | ok s1 =>
        rw [hstep] at h
        obtain ⟨hinv1, l1, himp1, hall1⟩ := step_emitted_spec hinv hstep
        obtain ⟨hinv2, l2, himp2, hall2⟩ := ih hinv1 h
        refine ⟨hinv2, l1 ++ l2, by rw [himp2, himp1, List.append_assoc], ?_⟩
        intro i hi
        rcases List.mem_append.mp hi with hi | hi
        · exact hall1 i hi
        · exact hall2 i hi
    · obtain rfl : _ = s2 := Except.ok.inj h
      exact ⟨hinv, [], by simp, fun i hi => by simp at hi⟩

/-- C7: every import emitted during a pass carries the pass's laziness and the
corresponding fixed size: `is_lazy = true` with `size = 8` on the lazy pass and
`size = 0` on the eager pass, independent of the pointer-width context
(`ctxSize` is arbitrary here). -/
theorem c7_pass_sets_lazy_flag_and_size {data : List Nat} {libs : List String}
    {segments : List Segment} {ctxSize : Nat} {is_lazy : Bool} {location : BindRange}
    {prior l : List Import}
    (h : run data libs segments ctxSize is_lazy location prior = .ok l) :
    ∀ imp ∈ l.drop prior.length,
      imp.is_lazy = is_lazy ∧ imp.size = (if is_lazy then 8 else 0) := by
  unfold run at h
  cases hr : runFuel data libs segments ctxSize is_lazy location
      (location.stop - location.start)
      { bind_info := BindInformation.new is_lazy, offset := location.start,
        start_of_sequence := 0, imports := prior } with
  | error e => rw [hr] at h; cases h
  | ok s2 =>
    rw [hr] at h
    obtain rfl : s2.imports = l := Except.ok.inj h
    obtain ⟨-, l2, himp, hall⟩ := runFuel_emitted_spec (BindInformation.new_is_lazy is_lazy) hr
    intro imp hi
    rw [himp] at hi
    simp only [List.drop_left] at hi
    exact hall imp hi

/-- Witness for C7: a lazy pass over the single opcode `DO_BIND` with pointer
width 4 emits one import with `is_lazy = true` and `size = 8`. -/
theorem c7_witness :
    (run [0x90] ["a"] [⟨0, 0⟩] 4 true ⟨0, 1⟩ [] =
      .ok [{ name := [], dylib := "a", is_lazy := true, offset := 0, size := 8, address := 0,
             addend := 0, is_weak := false, start_of_sequence_offset := 0 }]) ∧
    ∀ imp ∈ ([{ name := [], dylib := "a", is_lazy := true, offset := 0, size := 8, address := 0,
                addend := 0, is_weak := false, start_of_sequence_offset := 0 }] :
        List Import).drop 0,
      imp.is_lazy = true ∧ imp.size = (if true then 8 else 0) :=
  ⟨rfl, @c7_pass_sets_lazy_flag_and_size [0x90] ["a"] [⟨0, 0⟩] 4 true ⟨0, 1⟩ []
      [{ name := [], dylib := "a", is_lazy := true, offset := 0, size := 8, address := 0,
         addend := 0, is_weak := false, start_of_sequence_offset := 0 }] rfl⟩

/-- C8: executing a `DONE` opcode replaces the record with a fresh one, so
`library_ordinal`, `addend`, `symbol_name` and `segment_offset` return to their
pass-initial defaults (0, 0, empty, 0), regardless of the accumulated state. -/
theorem c8_done_resets_record {data : List Nat} {libs : List String} {segments : List Segment}
    {ctxSize : Nat} {is_lazy : Bool} {location : BindRange} {s s2 : RunState} {b : Nat}
    (hb : data[s.offset]? = some b) (hop : b &&& BIND_OPCODE_MASK = BIND_OPCODE_DONE)
    (hstep : step data libs segments ctxSize is_lazy location s = .ok s2) :
    s2.bind_info.symbol_library_ordinal = 0 ∧ s2.bind_info.addend = 0 ∧
    s2.bind_info.symbol_name = [] ∧ s2.bind_info.seg_offset = 0 := by
  unfold step readByte at hstep
  rw [hb] at hstep
  simp only [Except.bind, bind, pure, Except.pure, hop, if_pos] at hstep
  obtain rfl : _ = s2 := Except.ok.inj hstep
  cases is_lazy <;> simp [BindInformation.new, BindInformation.defaultInfo]

/-- Witness for C8: a DONE executed on a record with every field dirtied
yields the default field values. -/
theorem c8_witness :
    (([0x00] : List Nat)[(0 : Nat)]? = some 0x00) ∧
    (0x00 &&& BIND_OPCODE_MASK = BIND_OPCODE_DONE) ∧
    (step [0x00] [] [] 8 false ⟨0, 1⟩
        { bind_info := { seg_index := 3, seg_offset := 7, bind_type := 2,
                         symbol_library_ordinal := 9, symbol_name := [1], symbol_flags := 1,
                         addend := -5, special_dylib := 0, is_lazy := false },
          offset := 0, start_of_sequence := 0, imports := [] }
      = .ok { bind_info := BindInformation.new false, offset := 1, start_of_sequence := 1,
              imports := [] }) ∧
    ((BindInformation.new false).symbol_library_ordinal = 0 ∧
     (BindInformation.new false).addend = 0 ∧
     (BindInformation.new false).symbol_name = [] ∧
     (BindInformation.new false).seg_offset = 0) :=
  ⟨rfl, rfl, rfl,
    @c8_done_resets_record [0x00] [] [] 8 false ⟨0, 1⟩
      { bind_info := { seg_index := 3, seg_offset := 7, bind_type := 2,
                       symbol_library_ordinal := 9, symbol_name := [1], symbol_flags := 1,
                       addend := -5, special_dylib := 0, is_lazy := false },
        offset := 0, start_of_sequence := 0, imports := [] }
      { bind_info := BindInformation.new false, offset := 1, start_of_sequence := 1,
        imports := [] } 0x00 rfl rfl rfl⟩

/-- Normal form of one loop iteration on an opcode byte whose high nibble is
none of the thirteen defined operations: nothing but the cursor changes. -/
theorem step_noop_eq {data : List Nat} {libs : List String} {segments : List Segment}
    {ctxSize : Nat} {is_lazy : Bool} {location : BindRange} {s : RunState} {b : Nat}
    (hb : data[s.offset]? = some b)
    (hop : b &&& BIND_OPCODE_MASK ∉ ([BIND_OPCODE_DONE, BIND_OPCODE_SET_DYLIB_ORDINAL_IMM,
      BIND_OPCODE_SET_DYLIB_ORDINAL_ULEB, BIND_OPCODE_SET_DYLIB_SPECIAL_IMM,
      BIND_OPCODE_SET_SYMBOL_TRAILING_FLAGS_IMM, BIND_OPCODE_SET_TYPE_IMM,
      BIND_OPCODE_SET_ADDEND_SLEB, BIND_OPCODE_SET_SEGMENT_AND_OFFSET_ULEB,
      BIND_OPCODE_ADD_ADDR_ULEB, BIND_OPCODE_DO_BIND, BIND_OPCODE_DO_BIND_ADD_ADDR_ULEB,
      BIND_OPCODE_DO_BIND_ADD_ADDR_IMM_SCALED,
      BIND_OPCODE_DO_BIND_ULEB_TIMES_SKIPPING_ULEB] : List Nat)) :
    step data libs segments ctxSize is_lazy location s = .ok { s with offset := s.offset + 1 } := by
  simp only [List.mem_cons, List.not_mem_nil, or_false, not_or] at hop
  obtain ⟨n0, n1, n2, n3, n4, n5, n6, n7, n8, n9, n10, n11, n12⟩ := hop
  unfold step readByte
  rw [hb]
  simp only [bind, Except.bind, pure, Except.pure]
  rw [if_neg n0, if_neg n1, if_neg n2, if_neg n3, if_neg n4, if_neg n5, if_neg n6, if_neg n7,
      if_neg n8, if_neg n9, if_neg n10, if_neg n11, if_neg n12]

/-- C9: an opcode byte whose high nibble matches none of the thirteen defined
opcodes is a no-op: the iteration succeeds (never an error), consumes exactly
the one opcode byte, and leaves the binding record, the start-of-sequence
marker and the emitted-import list unchanged. -/
theorem c9_unknown_opcode_noop {data : List Nat} {libs : List String} {segments : List Segment}
    {ctxSize : Nat} {is_lazy : Bool} {location : BindRange} {s : RunState} {b : Nat}
    (hb : data[s.offset]? = some b)
    (hop : b &&& BIND_OPCODE_MASK ∉ ([BIND_OPCODE_DONE, BIND_OPCODE_SET_DYLIB_ORDINAL_IMM,
      BIND_OPCODE_SET_DYLIB_ORDINAL_ULEB, BIND_OPCODE_SET_DYLIB_SPECIAL_IMM,
      BIND_OPCODE_SET_SYMBOL_TRAILING_FLAGS_IMM, BIND_OPCODE_SET_TYPE_IMM,
      BIND_OPCODE_SET_ADDEND_SLEB, BIND_OPCODE_SET_SEGMENT_AND_OFFSET_ULEB,
      BIND_OPCODE_ADD_ADDR_ULEB, BIND_OPCODE_DO_BIND, BIND_OPCODE_DO_BIND_ADD_ADDR_ULEB,
      BIND_OPCODE_DO_BIND_ADD_ADDR_IMM_SCALED,
      BIND_OPCODE_DO_BIND_ULEB_TIMES_SKIPPING_ULEB] : List Nat)) :
    step data libs segments ctxSize is_lazy location s = .ok { s with offset := s.offset + 1 } :=
  step_noop_eq hb hop

/-- Witness for C9: the undefined opcode byte 0xD5 only advances the cursor. -/
theorem c9_witness :
    (([0xD5] : List Nat)[(0 : Nat)]? = some 0xD5) ∧
    (0xD5 &&& BIND_OPCODE_MASK ∉ ([BIND_OPCODE_DONE, BIND_OPCODE_SET_DYLIB_ORDINAL_IMM,
      BIND_OPCODE_SET_DYLIB_ORDINAL_ULEB, BIND_OPCODE_SET_DYLIB_SPECIAL_IMM,
      BIND_OPCODE_SET_SYMBOL_TRAILING_FLAGS_IMM, BIND_OPCODE_SET_TYPE_IMM,
      BIND_OPCODE_SET_ADDEND_SLEB, BIND_OPCODE_SET_SEGMENT_AND_OFFSET_ULEB,
      BIND_OPCODE_ADD_ADDR_ULEB, BIND_OPCODE_DO_BIND, BIND_OPCODE_DO_BIND_ADD_ADDR_ULEB,
      BIND_OPCODE_DO_BIND_ADD_ADDR_IMM_SCALED,
      BIND_OPCODE_DO_BIND_ULEB_TIMES_SKIPPING_ULEB] : List Nat)) ∧
    (step [0xD5] ["a"] [⟨0, 0⟩] 8 false ⟨0, 1⟩
        { bind_info := BindInformation.new false, offset := 0, start_of_sequence := 0,
          imports := [] }
      = .ok { bind_info := BindInformation.new false, offset := 1, start_of_sequence := 0,
              imports := [] }) :=
  ⟨rfl, by decide,
    @c9_unknown_opcode_noop [0xD5] ["a"] [⟨0, 0⟩] 8 false ⟨0, 1⟩
      { bind_info := BindInformation.new false, offset := 0, start_of_sequence := 0,
        imports := [] } 0xD5 rfl (by decide)⟩

/-- Normal form of one loop iteration on a `DONE` opcode: the record is
replaced by a fresh one and `start_of_sequence` becomes the cursor position
just past the DONE byte, relative to the range start. -/
theorem step_done_eq {data : List Nat} {libs : List String}
    {segments : List Segment} {ctxSize : Nat} {is_lazy : Bool} {location : BindRange}
    {s : RunState} {b : Nat}
    (hb : data[s.offset]? = some b) (hop : b &&& BIND_OPCODE_MASK = BIND_OPCODE_DONE) :
    step data libs segments ctxSize is_lazy location s =
      .ok { s with bind_info := BindInformation.new is_lazy, offset := s.offset + 1,
                   start_of_sequence := s.offset + 1 - location.start } := by
  unfold step readByte
  rw [hb]
  simp only [Except.bind, bind, pure, Except.pure, hop, if_pos]

/-- A successful `DO_BIND` iteration stamps the emitted import with the current
`start_of_sequence`. -/
theorem step_do_bind_sos {data : List Nat} {libs : List String}
    {segments : List Segment} {ctxSize : Nat} {is_lazy : Bool} {location : BindRange}
    {s s2 : RunState} {b : Nat}
    (hb : data[s.offset]? = some b) (hop : b &&& BIND_OPCODE_MASK = BIND_OPCODE_DO_BIND)
    (hstep : step data libs segments ctxSize is_lazy location s = .ok s2) :
    ∀ imp ∈ s2.imports.drop s.imports.length,
      imp.start_of_sequence_offset = s.start_of_sequence := by
  unfold step readByte at hstep
  rw [hb] at hstep
  simp only [bind, Except.bind, pure, Except.pure] at hstep
  have n0 : b &&& BIND_OPCODE_MASK ≠ BIND_OPCODE_DONE := by rw [hop]; decide
  have n1 : b &&& BIND_OPCODE_MASK ≠ BIND_OPCODE_SET_DYLIB_ORDINAL_IMM := by rw [hop]; decide
  have n2 : b &&& BIND_OPCODE_MASK ≠ BIND_OPCODE_SET_DYLIB_ORDINAL_ULEB := by rw [hop]; decide
  have n3 : b &&& BIND_OPCODE_MASK ≠ BIND_OPCODE_SET_DYLIB_SPECIAL_IMM := by rw [hop]; decide
  have n4 : b &&& BIND_OPCODE_MASK ≠ BIND_OPCODE_SET_SYMBOL_TRAILING_FLAGS_IMM := by
    rw [hop]; decide
  have n5 : b &&& BIND_OPCODE_MASK ≠ BIND_OPCODE_SET_TYPE_IMM := by rw [hop]; decide
  have n6 : b &&& BIND_OPCODE_MASK ≠ BIND_OPCODE_SET_ADDEND_SLEB := by rw [hop]; decide
  have n7 : b &&& BIND_OPCODE_MASK ≠ BIND_OPCODE_SET_SEGMENT_AND_OFFSET_ULEB := by
    rw [hop]; decide
  have n8 : b &&& BIND_OPCODE_MASK ≠ BIND_OPCODE_ADD_ADDR_ULEB := by rw [hop]; decide
  rw [if_neg n0, if_neg n1, if_neg n2, if_neg n3, if_neg n4, if_neg n5, if_neg n6, if_neg n7,
      if_neg n8, if_pos hop] at hstep
  cases himp : Import.new s.bind_info libs segments s.start_of_sequence with
  | error e => simp only [himp] at hstep; cases hstep
  | ok imp =>
    simp only [himp] at hstep
    obtain rfl : _ = s2 := Except.ok.inj hstep
    intro i hi
    simp only [List.drop_left] at hi
    rcases List.mem_singleton.mp hi with rfl
    obtain ⟨-, -, -, -, -, h6⟩ := Import.new_ok_fields himp
    exact h6

/-- C3 amended: executing a `DONE` opcode sets the `start_of_sequence` marker
to the byte offset immediately after the DONE opcode (its own offset plus one),
relative to the range start, and a subsequent `DO_BIND` emission stamps the
emitted import with the current marker, so the import after a DONE records
the DONE's offset plus one, not the DONE's own offset. -/
theorem c3_amended_sos_is_offset_after_done :
    (∀ (data : List Nat) (libs : List String) (segments : List Segment) (ctxSize : Nat)
       (is_lazy : Bool) (location : BindRange) (s : RunState) (b : Nat),
       data[s.offset]? = some b → b &&& BIND_OPCODE_MASK = BIND_OPCODE_DONE →
       step data libs segments ctxSize is_lazy location s =
         .ok { s with bind_info := BindInformation.new is_lazy, offset := s.offset + 1,
                      start_of_sequence := s.offset + 1 - location.start }) ∧
    (∀ (data : List Nat) (libs : List String) (segments : List Segment) (ctxSize : Nat)
       (is_lazy : Bool) (location : BindRange) (s s2 : RunState) (b : Nat),
       data[s.offset]? = some b → b &&& BIND_OPCODE_MASK = BIND_OPCODE_DO_BIND →
       step data libs segments ctxSize is_lazy location s = .ok s2 →
       ∀ imp ∈ s2.imports.drop s.imports.length,
         imp.start_of_sequence_offset = s.start_of_sequence) :=
  ⟨fun _ _ _ _ _ _ _ _ hb hop => step_done_eq hb hop,
   fun _ _ _ _ _ _ _ _ _ hb hop hstep => step_do_bind_sos hb hop hstep⟩

/-- Witness for C3 amended: on the stream `DONE; DO_BIND`, the DONE at offset 0
sets the marker to 1, and the DO_BIND emission is stamped with the current
marker. -/
theorem c3_amended_witness :
    (([0x00, 0x90] : List Nat)[(0 : Nat)]? = some 0x00) ∧
    (0x00 &&& BIND_OPCODE_MASK = BIND_OPCODE_DONE) ∧
    (step [0x00, 0x90] ["a"] [⟨0, 0⟩] 8 false ⟨0, 2⟩
        { bind_info := BindInformation.new false, offset := 0, start_of_sequence := 0,
          imports := [] }
      = .ok { bind_info := BindInformation.new false, offset := 1, start_of_sequence := 1,
              imports := [] }) ∧
    (([0x00, 0x90] : List Nat)[(1 : Nat)]? = some 0x90) ∧
    (0x90 &&& BIND_OPCODE_MASK = BIND_OPCODE_DO_BIND) ∧
    (∀ imp ∈ ([{ name := [], dylib := "a", is_lazy := false, offset := 0, size := 0,
                 address := 0, addend := 0, is_weak := false,
                 start_of_sequence_offset := 1 }] : List Import).drop 0,
       imp.start_of_sequence_offset = 1) :=
  ⟨rfl, rfl,
    c3_amended_sos_is_offset_after_done.1 [0x00, 0x90] ["a"] [⟨0, 0⟩] 8 false ⟨0, 2⟩
      { bind_info := BindInformation.new false, offset := 0, start_of_sequence := 0,
        imports := [] } 0x00 rfl rfl,
   rfl, rfl,
    c3_amended_sos_is_offset_after_done.2 [0x00, 0x90] ["a"] [⟨0, 0⟩] 8 false ⟨0, 2⟩
      { bind_info := BindInformation.new false, offset := 1, start_of_sequence := 1,
        imports := [] }
      { bind_info := { BindInformation.new false with seg_offset := 8 }, offset := 2,
        start_of_sequence := 1,
        imports := [{ name := [], dylib := "a", is_lazy := false, offset := 0, size := 0,
                      address := 0, addend := 0, is_weak := false,
                      start_of_sequence_offset := 1 }] } 0x90 rfl rfl rfl⟩

/-- A ULEB128 encoding in which every remaining byte has the continuation bit
set is truncated by the buffer end. -/
theorem ulebBytes_none_of_all_cont : ∀ {l : List Nat},
    (∀ b ∈ l, b &&& 0x80 ≠ 0) → ulebBytes l = none := by
  intro l
  induction l with
  | nil => intro _; rfl
  | cons b rest ih =>
    intro h
    unfold ulebBytes
    rw [if_neg (h b (List.mem_cons_self b rest))]
    rw [ih (fun x hx => h x (List.mem_cons_of_mem b hx))]

/-- C2 amended: reads are bounds-checked against the end of the underlying
data buffer, not the declared range end of the current pass: a byte read at or
past the buffer end fails with a decode error identifying the offset, a ULEB128
whose continuation never ends within the buffer fails with a decode error, a
null-terminated symbol-string read fails with a decode error identifying the
string's offset whenever no terminator occurs before the buffer end (the
declared range end plays no role in the scan), and a failing pass (eager or
lazy) makes the whole import extraction return that error, so no partial
list of imports reaches the caller. (Reads that cross only the declared range
end succeed, as the counterexample shows.) -/
theorem c2_amended_reads_checked_against_buffer :
    (∀ (data : List Nat) (o : Nat), data.length ≤ o →
       readByte data o = .error (.decodeError o)) ∧
    (∀ (data : List Nat) (o : Nat), (∀ b ∈ data.drop o, b &&& 0x80 ≠ 0) →
       ulebRead data o = .error (.decodeError data.length)) ∧
    (∀ (data : List Nat) (o : Nat), (∀ b ∈ data.drop o, b ≠ 0) →
       strRead data o = .error (.decodeError o)) ∧
    (∀ (self : BindInterpreter) (libs : List String) (segments : List Segment)
       (ctxSize : Nat) (e : Fault),
       run self.data libs segments ctxSize false self.location [] = .error e →
       self.imports libs segments ctxSize = .error e) ∧
    (∀ (self : BindInterpreter) (libs : List String) (segments : List Segment)
       (ctxSize : Nat) (l1 : List Import) (e : Fault),
       run self.data libs segments ctxSize false self.location [] = .ok l1 →
       run self.data libs segments ctxSize true self.lazy_location l1 = .error e →
       self.imports libs segments ctxSize = .error e) := by
  refine ⟨?_, ?_, ?_, ?_, ?_⟩
  · intro data o h
    unfold readByte
    rw [List.getElem?_eq_none h]
  · intro data o h
    unfold ulebRead
    rw [ulebBytes_none_of_all_cont h]
  · intro data o h
    unfold strRead
    rw [if_neg fun hc => h 0 (List.elem_iff.mp hc) rfl]
  · intro self libs segments ctxSize e h
    unfold BindInterpreter.imports
    rw [h]
  · intro self libs segments ctxSize l1 e h1 h2
    unfold BindInterpreter.imports
    rw [h1]
    simp only [h2]

/-- Witness for C2 amended: concrete instances of all five conjuncts, the
string one both at the primitive (a `SET_SYMBOL_TRAILING_FLAGS_IMM` whose
string never terminates before the buffer end) and propagated through the
whole import extraction. -/
theorem c2_amended_witness :
    (([] : List Nat).length ≤ 0) ∧ (readByte [] 0 = .error (.decodeError 0)) ∧
    (∀ b ∈ ([0x80] : List Nat).drop 0, b &&& 0x80 ≠ 0) ∧
    (ulebRead [0x80] 0 = .error (.decodeError 1)) ∧
    (∀ b ∈ ([0x40, 0x66] : List Nat).drop 1, b ≠ 0) ∧
    (strRead [0x40, 0x66] 1 = .error (.decodeError 1)) ∧
    (run [0x40, 0x66] ["a"] [] 8 false ⟨0, 2⟩ [] = .error (.decodeError 1)) ∧
    (BindInterpreter.imports ⟨[0x40, 0x66], ⟨0, 2⟩, ⟨2, 2⟩⟩ ["a"] [] 8
       = .error (.decodeError 1)) ∧
    (run [0x20] ["a"] [] 8 false ⟨0, 1⟩ [] = .error (.decodeError 1)) ∧
    (BindInterpreter.imports ⟨[0x20], ⟨0, 1⟩, ⟨1, 1⟩⟩ ["a"] [] 8 = .error (.decodeError 1)) ∧
    (run [0x20] ["a"] [] 8 false ⟨0, 0⟩ [] = .ok []) ∧
    (run [0x20] ["a"] [] 8 true ⟨0, 1⟩ [] = .error (.decodeError 1)) ∧
    (BindInterpreter.imports ⟨[0x20], ⟨0, 0⟩, ⟨0, 1⟩⟩ ["a"] [] 8 = .error (.decodeError 1)) :=
  ⟨by decide, c2_amended_reads_checked_against_buffer.1 [] 0 (by decide),
   by decide, c2_amended_reads_checked_against_buffer.2.1 [0x80] 0 (by decide),
   by decide, c2_amended_reads_checked_against_buffer.2.2.1 [0x40, 0x66] 1 (by decide),
   rfl,
   c2_amended_reads_checked_against_buffer.2.2.2.1 ⟨[0x40, 0x66], ⟨0, 2⟩, ⟨2, 2⟩⟩ ["a"] [] 8
     (.decodeError 1) rfl,
   rfl,
   c2_amended_reads_checked_against_buffer.2.2.2.1 ⟨[0x20], ⟨0, 1⟩, ⟨1, 1⟩⟩ ["a"] [] 8
     (.decodeError 1) rfl,
   rfl, rfl,
   c2_amended_reads_checked_against_buffer.2.2.2.2 ⟨[0x20], ⟨0, 0⟩, ⟨0, 1⟩⟩ ["a"] [] 8 []
     (.decodeError 1) rfl rfl⟩

/-- Normal form of a successful `Import::new` under explicit table lookups and
overflow-freedom. -/
theorem Import.new_eq_ok {bi : BindInformation} {libs : List String} {segments : List Segment}
    {sos : Nat} {seg : Segment} {d : String}
    (hseg : segments[bi.seg_index]? = some seg)
    (hd : libs[bi.symbol_library_ordinal]? = some d)
    (h1 : seg.fileoff + bi.seg_offset < U64LIMIT)
    (h2 : seg.vmaddr + bi.seg_offset < U64LIMIT) :
    Import.new bi libs segments sos =
      .ok { name := bi.symbol_name, dylib := d, is_lazy := bi.is_lazy,
            offset := seg.fileoff + bi.seg_offset,
            size := if bi.is_lazy then 8 else 0,
            address := seg.vmaddr + bi.seg_offset,
            addend := bi.addend, is_weak := bi.is_weak, start_of_sequence_offset := sos } := by
  unfold Import.new checkedAdd
  simp only [hseg, hd, bind, Except.bind, pure, Except.pure, if_pos h1, if_pos h2]

/-- Unfolding of `repeatedImports` by one emission: the head binds at the
current `seg_offset` and the tail continues from `seg_offset + sps`. -/
theorem repeatedImports_succ (bi : BindInformation) (seg : Segment) (d : String)
    (sos sps n : Nat) :
    repeatedImports bi seg d sos sps (n + 1) =
      { name := bi.symbol_name, dylib := d, is_lazy := bi.is_lazy,
        offset := seg.fileoff + bi.seg_offset,
        size := if bi.is_lazy then 8 else 0,
        address := seg.vmaddr + bi.seg_offset,
        addend := bi.addend, is_weak := bi.is_weak, start_of_sequence_offset := sos } ::
        repeatedImports { bi with seg_offset := bi.seg_offset + sps } seg d sos sps n := by
  unfold repeatedImports
  rw [List.range_succ_eq_map]
  simp only [List.map_cons, List.map_map, Nat.zero_mul, Nat.add_zero]
  congr 1
  refine List.map_congr_left fun j hj => ?_
  simp only [Function.comp_apply, BindInformation.is_weak, Nat.succ_mul]
  congr 1 <;> ring

/-- The repetition loop, when the record's indices resolve and no `u64` sum
overflows, succeeds and appends exactly the arithmetic progression of imports
described by `repeatedImports`, advancing `seg_offset` by `n * sps`. -/
theorem doBindLoop_eq {libs : List String} {segments : List Segment} {sos sps : Nat} :
    ∀ (n : Nat) (bi : BindInformation) (acc : List Import) (seg : Segment) (d : String),
      segments[bi.seg_index]? = some seg →
      libs[bi.symbol_library_ordinal]? = some d →
      bi.seg_offset + n * sps < U64LIMIT →
      seg.fileoff + (bi.seg_offset + n * sps) < U64LIMIT →
      seg.vmaddr + (bi.seg_offset + n * sps) < U64LIMIT →
      doBindLoop libs segments sos sps n bi acc =
        .ok ({ bi with seg_offset := bi.seg_offset + n * sps },
             acc ++ repeatedImports bi seg d sos sps n) := by
  intro n
  induction n with
  | zero =>
    intro bi acc seg d hseg hd h1 h2 h3
    unfold doBindLoop
    simp [repeatedImports]
  | succ n ih =>
    intro bi acc seg d hseg hd h1 h2 h3
    have hle : bi.seg_offset + sps ≤ bi.seg_offset + (n + 1) * sps :=
      Nat.add_le_add_left (Nat.le_mul_of_pos_left sps (Nat.succ_pos n)) _
    have hf : seg.fileoff + bi.seg_offset < U64LIMIT :=
      lt_of_le_of_lt (Nat.add_le_add_left (Nat.le_add_right _ _) _) h2
    have hv : seg.vmaddr + bi.seg_offset < U64LIMIT :=
      lt_of_le_of_lt (Nat.add_le_add_left (Nat.le_add_right _ _) _) h3
    have hws : bi.seg_offset + sps < U64LIMIT := lt_of_le_of_lt hle h1
    have hwrap : wrappingAdd bi.seg_offset sps = bi.seg_offset + sps := by
      unfold wrappingAdd U64LIMIT
      exact Nat.mod_eq_of_lt hws
    have e1 : bi.seg_offset + (n + 1) * sps = bi.seg_offset + sps + n * sps := by ring
    unfold doBindLoop
    rw [Import.new_eq_ok hseg hd hf hv]
    simp only [bind, Except.bind, hwrap]
    rw [ih { bi with seg_offset := bi.seg_offset + sps }
        (acc ++ [({ name := bi.symbol_name, dylib := d, is_lazy := bi.is_lazy,
                    offset := seg.fileoff + bi.seg_offset,
                    size := if bi.is_lazy then 8 else 0,
                    address := seg.vmaddr + bi.seg_offset,
                    addend := bi.addend, is_weak := bi.is_weak,
                    start_of_sequence_offset := sos } : Import)]) seg d hseg hd
        (by rw [← e1]; exact h1) (by rw [← e1]; exact h2) (by rw [← e1]; exact h3)]
    rw [repeatedImports_succ]
    simp only [List.append_assoc, List.singleton_append]
    congr 2
    rw [e1]

/-- C6: a `DO_BIND_ULEB_TIMES_SKIPPING_ULEB` with decoded operands `count` and
`skip` (wrap-free bounds as hypotheses) emits exactly `count` imports, all
sharing the record's symbol name and resolved library, and the addresses of
consecutive emissions differ by `skip + ctxSize` (skip plus pointer size). -/
theorem c6_repetition_emits_count_imports {data : List Nat} {libs : List String}
    {segments : List Segment} {ctxSize : Nat} {is_lazy : Bool} {location : BindRange}
    {s : RunState} {b count skip o1 o2 : Nat} {seg : Segment} {d : String}
    (hb : data[s.offset]? = some b)
    (hop : b &&& BIND_OPCODE_MASK = BIND_OPCODE_DO_BIND_ULEB_TIMES_SKIPPING_ULEB)
    (hu1 : ulebRead data (s.offset + 1) = .ok (count, o1))
    (hu2 : ulebRead data o1 = .ok (skip, o2))
    (hseg : segments[s.bind_info.seg_index]? = some seg)
    (hd : libs[s.bind_info.symbol_library_ordinal]? = some d)
    (hsp : skip + ctxSize < U64LIMIT)
    (hoff : s.bind_info.seg_offset + count * (skip + ctxSize) < U64LIMIT)
    (hfile : seg.fileoff + (s.bind_info.seg_offset + count * (skip + ctxSize)) < U64LIMIT)
    (hvm : seg.vmaddr + (s.bind_info.seg_offset + count * (skip + ctxSize)) < U64LIMIT) :
    (step data libs segments ctxSize is_lazy location s =
      .ok { s with
            bind_info := { s.bind_info with
                           seg_offset := s.bind_info.seg_offset + count * (skip + ctxSize) },
            offset := o2,
            imports := s.imports ++
              repeatedImports s.bind_info seg d s.start_of_sequence (skip + ctxSize) count }) ∧
    (repeatedImports s.bind_info seg d s.start_of_sequence (skip + ctxSize) count).length
      = count ∧
    (∀ j, j < count → ∃ imp,
      (repeatedImports s.bind_info seg d s.start_of_sequence (skip + ctxSize) count)[j]?
        = some imp ∧
      imp.name = s.bind_info.symbol_name ∧ imp.dylib = d) ∧
    (∀ j imp imp2,
      (repeatedImports s.bind_info seg d s.start_of_sequence (skip + ctxSize) count)[j]?
        = some imp →
      (repeatedImports s.bind_info seg d s.start_of_sequence (skip + ctxSize) count)[j + 1]?
        = some imp2 →
      imp2.address = imp.address + (skip + ctxSize)) := by
  refine ⟨?_, by simp [repeatedImports], ?_, ?_⟩
  · unfold step readByte
    rw [hb]
    simp only [bind, Except.bind, pure, Except.pure]
    have n0 : b &&& BIND_OPCODE_MASK ≠ BIND_OPCODE_DONE := by rw [hop]; decide
    have n1 : b &&& BIND_OPCODE_MASK ≠ BIND_OPCODE_SET_DYLIB_ORDINAL_IMM := by rw [hop]; decide
    have n2 : b &&& BIND_OPCODE_MASK ≠ BIND_OPCODE_SET_DYLIB_ORDINAL_ULEB := by rw [hop]; decide
    have n3 : b &&& BIND_OPCODE_MASK ≠ BIND_OPCODE_SET_DYLIB_SPECIAL_IMM := by rw [hop]; decide
    have n4 : b &&& BIND_OPCODE_MASK ≠ BIND_OPCODE_SET_SYMBOL_TRAILING_FLAGS_IMM := by
      rw [hop]; decide
    have n5 : b &&& BIND_OPCODE_MASK ≠ BIND_OPCODE_SET_TYPE_IMM := by rw [hop]; decide
    have n6 : b &&& BIND_OPCODE_MASK ≠ BIND_OPCODE_SET_ADDEND_SLEB := by rw [hop]; decide
    have n7 : b &&& BIND_OPCODE_MASK ≠ BIND_OPCODE_SET_SEGMENT_AND_OFFSET_ULEB := by
      rw [hop]; decide
    have n8 : b &&& BIND_OPCODE_MASK ≠ BIND_OPCODE_ADD_ADDR_ULEB := by rw [hop]; decide
    have n9 : b &&& BIND_OPCODE_MASK ≠ BIND_OPCODE_DO_BIND := by rw [hop]; decide
    have n10 : b &&& BIND_OPCODE_MASK ≠ BIND_OPCODE_DO_BIND_ADD_ADDR_ULEB := by rw [hop]; decide
    have n11 : b &&& BIND_OPCODE_MASK ≠ BIND_OPCODE_DO_BIND_ADD_ADDR_IMM_SCALED := by
      rw [hop]; decide
    rw [if_neg n0, if_neg n1, if_neg n2, if_neg n3, if_neg n4, if_neg n5, if_neg n6, if_neg n7,
        if_neg n8, if_neg n9, if_neg n10, if_neg n11, if_pos hop]
    simp only [hu1, hu2]
    unfold checkedAdd
    rw [if_pos hsp]
    simp only [bind, Except.bind]
    rw [doBindLoop_eq count s.bind_info s.imports seg d hseg hd hoff hfile hvm]
  · intro j hj
    exact ⟨{ name := s.bind_info.symbol_name, dylib := d, is_lazy := s.bind_info.is_lazy,
             offset := seg.fileoff + (s.bind_info.seg_offset + j * (skip + ctxSize)),
             size := if s.bind_info.is_lazy then 8 else 0,
             address := seg.vmaddr + (s.bind_info.seg_offset + j * (skip + ctxSize)),
             addend := s.bind_info.addend, is_weak := s.bind_info.is_weak,
             start_of_sequence_offset := s.start_of_sequence },
           by simp [repeatedImports, List.getElem?_map, List.getElem?_range hj], rfl, rfl⟩
  · intro j imp imp2 h1 h2
    simp only [repeatedImports, List.getElem?_map, Option.map_eq_some'] at h1 h2
    obtain ⟨a1, hja1, rfl⟩ := h1
    obtain ⟨a2, hja2, rfl⟩ := h2
    have hlt1 : j < count := by
      by_contra hcon
      rw [List.getElem?_eq_none (by simpa using Nat.le_of_not_lt hcon)] at hja1
      cases hja1
    have hlt2 : j + 1 < count := by
      by_contra hcon
      rw [List.getElem?_eq_none (by simpa using Nat.le_of_not_lt hcon)] at hja2
      cases hja2
    rw [List.getElem?_range hlt1] at hja1
    rw [List.getElem?_range hlt2] at hja2
    have e1 : a1 = j := (Option.some.inj hja1).symm
    have e2 : a2 = j + 1 := (Option.some.inj hja2).symm
    rw [e1, e2]
    show seg.vmaddr + (s.bind_info.seg_offset + (j + 1) * (skip + ctxSize))
      = seg.vmaddr + (s.bind_info.seg_offset + j * (skip + ctxSize)) + (skip + ctxSize)
    ring

/-- Witness for C6: the spec's instance, `count = 3`, `skip = 4`, pointer size
8, starting at `segment_offset = 0`: three imports whose addresses step by
12. -/
theorem c6_witness :
    (([0xC0, 0x03, 0x04] : List Nat)[(0 : Nat)]? = some 0xC0) ∧
    (0xC0 &&& BIND_OPCODE_MASK = BIND_OPCODE_DO_BIND_ULEB_TIMES_SKIPPING_ULEB) ∧
    (ulebRead [0xC0, 0x03, 0x04] 1 = .ok (3, 2)) ∧
    (ulebRead [0xC0, 0x03, 0x04] 2 = .ok (4, 3)) ∧
    (([⟨0, 0⟩] : List Segment)[(0 : Nat)]? = some ⟨0, 0⟩) ∧
    ((["a"] : List String)[(0 : Nat)]? = some "a") ∧
    (4 + 8 < U64LIMIT) ∧
    ((step [0xC0, 0x03, 0x04] ["a"] [⟨0, 0⟩] 8 false ⟨0, 3⟩
        { bind_info := BindInformation.new false, offset := 0, start_of_sequence := 0,
          imports := [] } =
      .ok { bind_info := { BindInformation.new false with
                           seg_offset := (BindInformation.new false).seg_offset + 3 * (4 + 8) },
            offset := 3, start_of_sequence := 0,
            imports := [] ++
              repeatedImports (BindInformation.new false) ⟨0, 0⟩ "a" 0 (4 + 8) 3 }) ∧
     (repeatedImports (BindInformation.new false) ⟨0, 0⟩ "a" 0 (4 + 8) 3).length = 3 ∧
     (∀ j, j < 3 → ∃ imp,
       (repeatedImports (BindInformation.new false) ⟨0, 0⟩ "a" 0 (4 + 8) 3)[j]? = some imp ∧
       imp.name = (BindInformation.new false).symbol_name ∧ imp.dylib = "a") ∧
     (∀ j imp imp2,
       (repeatedImports (BindInformation.new false) ⟨0, 0⟩ "a" 0 (4 + 8) 3)[j]? = some imp →
       (repeatedImports (BindInformation.new false) ⟨0, 0⟩ "a" 0 (4 + 8) 3)[j + 1]?
         = some imp2 →
       imp2.address = imp.address + (4 + 8))) :=
  ⟨rfl, rfl, rfl, rfl, rfl, rfl, by decide,
   @c6_repetition_emits_count_imports [0xC0, 0x03, 0x04] ["a"] [⟨0, 0⟩] 8 false ⟨0, 3⟩
     { bind_info := BindInformation.new false, offset := 0, start_of_sequence := 0,
       imports := [] }
     0xC0 3 4 2 3 ⟨0, 0⟩ "a" rfl rfl rfl rfl rfl rfl (by decide) (by decide) (by decide)
     (by decide)⟩

/-- ULEB128 decoding depends only on the bytes it consumes. -/
theorem ulebBytes_congr : ∀ {l1 l2 : List Nat} {v n : Nat},
    ulebBytes l1 = some (v, n) → (∀ i, i < n → l1[i]? = l2[i]?) →
    ulebBytes l2 = some (v, n) := by
  intro l1
  induction l1 with
  | nil => intro l2 v n h _; cases h
  | cons b rest ih =>
    intro l2 v n h hag
    unfold ulebBytes at h
    by_cases hc : b &&& 0x80 = 0
    · rw [if_pos hc] at h
      obtain ⟨rfl, rfl⟩ : b &&& 0x7F = v ∧ 1 = n := by
        have := Option.some.inj h
        exact ⟨congrArg Prod.fst this, congrArg Prod.snd this⟩
      have h0 := hag 0 (by decide)
      cases l2 with
      | nil => simp at h0
      | cons c l2t =>
        simp only [List.getElem?_cons_zero] at h0
        obtain rfl : b = c := Option.some.inj h0
        unfold ulebBytes
        rw [if_pos hc]
    · rw [if_neg hc] at h
      cases hrec : ulebBytes rest with
      | none => rw [hrec] at h; cases h
      | some q =>
        obtain ⟨w, m⟩ := q
        rw [hrec] at h
        simp only [] at h
        obtain ⟨rfl, rfl⟩ : (b &&& 0x7F) + 128 * w = v ∧ m + 1 = n := by
          have := Option.some.inj h
          exact ⟨congrArg Prod.fst this, congrArg Prod.snd this⟩
        have h0 := hag 0 (Nat.succ_pos m)
        cases l2 with
        | nil => simp at h0
        | cons c l2t =>
          simp only [List.getElem?_cons_zero] at h0
          obtain rfl : b = c := Option.some.inj h0
          unfold ulebBytes
          rw [if_neg hc]
          rw [ih hrec fun i hi => by
            have := hag (i + 1) (Nat.succ_lt_succ hi)
            simpa using this]

/-- A successful ULEB128 read transfers to any buffer agreeing on the consumed
byte positions. -/
theorem ulebRead_congr {data1 data2 : List Nat} {o v o2 : Nat}
    (h : ulebRead data1 o = .ok (v, o2))
    (hag : ∀ q, o ≤ q → q < o2 → data1[q]? = data2[q]?) :
    ulebRead data2 o = .ok (v, o2) := by
  unfold ulebRead at h ⊢
  cases hu : ulebBytes (data1.drop o) with
  | none => rw [hu] at h; cases h
  | some p =>
    obtain ⟨w, n⟩ := p
    rw [hu] at h
    simp only [] at h
    obtain ⟨rfl, rfl⟩ : w % U64LIMIT = v ∧ o + n = o2 := by
      have := Except.ok.inj h
      exact ⟨congrArg Prod.fst this, congrArg Prod.snd this⟩
    rw [ulebBytes_congr hu fun i hi => by
      rw [List.getElem?_drop, List.getElem?_drop]
      exact hag (o + i) (Nat.le_add_right o i) (Nat.add_lt_add_left hi o)]

/-- A successful SLEB128 read transfers to any buffer agreeing on the consumed
byte positions. -/
theorem slebRead_congr {data1 data2 : List Nat} {o : Nat} {z : Int} {o2 : Nat}
    (h : slebRead data1 o = .ok (z, o2))
    (hag : ∀ q, o ≤ q → q < o2 → data1[q]? = data2[q]?) :
    slebRead data2 o = .ok (z, o2) := by
  unfold slebRead at h ⊢
  cases hu : ulebBytes (data1.drop o) with
  | none => rw [hu] at h; cases h
  | some p =>
    obtain ⟨w, n⟩ := p
    rw [hu] at h
    simp only [] at h
    have hsnd : o + n = o2 := congrArg Prod.snd (Except.ok.inj h)
    subst hsnd
    rw [ulebBytes_congr hu fun i hi => by
      rw [List.getElem?_drop, List.getElem?_drop]
      exact hag (o + i) (Nat.le_add_right o i) (Nat.add_lt_add_left hi o)]
    exact h

/-- A takeWhile prefix depends only on the elements up to and including the
stopping position. -/
theorem takeWhile_congr {f : Nat → Bool} : ∀ {l1 l2 : List Nat},
    (∀ i, i ≤ (l1.takeWhile f).length → l1[i]? = l2[i]?) →
    l2.takeWhile f = l1.takeWhile f := by
  intro l1
  induction l1 with
  | nil =>
    intro l2 h
    have h0 := h 0 (by simp)
    cases l2 with
    | nil => rfl
    | cons c t => simp at h0
  | cons b rest ih =>
    intro l2 h
    cases hfb : f b
    · have h0 := h 0 (by simp [List.takeWhile_cons, hfb])
      cases l2 with
      | nil => simp at h0
      | cons c t =>
        simp only [List.getElem?_cons_zero] at h0
        obtain rfl : b = c := Option.some.inj h0
        simp [List.takeWhile_cons, hfb]
    · have h0 := h 0 (by simp)
      cases l2 with
      | nil => simp at h0
      | cons c t =>
        simp only [List.getElem?_cons_zero] at h0
        obtain rfl : b = c := Option.some.inj h0
        simp only [List.takeWhile_cons, hfb]
        rw [ih fun i hi => by
          have := h (i + 1) (by simpa [List.takeWhile_cons, hfb] using Nat.succ_le_succ hi)
          simpa using this]

/-- In a list containing a zero, the element right after the maximal zero-free
prefix is a zero: the `takeWhile` scan stops at a terminator, not at the list
end. -/
theorem takeWhile_zero_stop : ∀ {l : List Nat}, 0 ∈ l →
    l[(l.takeWhile (fun b => b != 0)).length]? = some 0 := by
  intro l
  induction l with
  | nil => intro h; cases h
  | cons b t ih =>
    intro h
    by_cases hb : b = 0
    · subst hb
      simp [List.takeWhile_cons]
    · have hbne : (b != 0) = true := by simpa using hb
      rw [List.takeWhile_cons, if_pos hbne]
      simp only [List.length_cons, List.getElem?_cons_succ]
      exact ih (by rcases List.mem_cons.mp h with rfl | h2; exact absurd rfl hb; exact h2)

/-- A successful null-terminated string read transfers to any buffer agreeing
on the string bytes and the terminator position. -/
theorem strRead_congr {data1 data2 : List Nat} {o : Nat} {nm : List Nat}
    (h : strRead data1 o = .ok nm)
    (hag : ∀ q, o ≤ q → q < o + nm.length + 1 → data1[q]? = data2[q]?) :
    strRead data2 o = .ok nm := by
  unfold strRead at h ⊢
  by_cases hc : (data1.drop o).contains 0 = true
  · rw [if_pos hc] at h
    obtain rfl : _ = nm := Except.ok.inj h
    have ht : (data2.drop o).takeWhile (fun b => b != 0)
        = (data1.drop o).takeWhile (fun b => b != 0) :=
      takeWhile_congr fun i hi => by
        rw [List.getElem?_drop, List.getElem?_drop]
        exact hag (o + i) (Nat.le_add_right o i) (by omega)
    have h0 : (data1.drop o)[((data1.drop o).takeWhile (fun b => b != 0)).length]?
        = some 0 := takeWhile_zero_stop (List.elem_iff.mp hc)
    have h0' : (data2.drop o)[((data1.drop o).takeWhile (fun b => b != 0)).length]?
        = some 0 := by
      rw [List.getElem?_drop] at h0 ⊢
      rw [← hag _ (Nat.le_add_right o _) (by omega)]
      exact h0
    have hm2 : 0 ∈ data2.drop o := List.getElem?_mem h0'
    rw [if_pos (List.elem_iff.mpr hm2), ht]
  · rw [if_neg hc] at h
    cases h

/-- Materializing an import never reads `bind_type` or `special_dylib`: records
equal on the other fields produce literally equal results. -/
theorem Import.new_congr {bi1 bi2 : BindInformation} {libs : List String}
    {segments : List Segment} {sos : Nat} (h : RecordEquiv bi1 bi2) :
    Import.new bi1 libs segments sos = Import.new bi2 libs segments sos := by
  obtain ⟨e1, e2, e3, e4, e5, e6, e7⟩ := h
  unfold Import.new BindInformation.is_weak
  rw [e1, e2, e3, e4, e5, e6, e7]

/-- The repetition loop, run from records equal up to `bind_type` and
`special_dylib`, fails identically or emits identical imports. -/
theorem doBindLoop_congr {libs : List String} {segments : List Segment} {sos sps : Nat} :
    ∀ (n : Nat) {bi1 bi2 : BindInformation} (acc : List Import),
      RecordEquiv bi1 bi2 →
      (∃ e, doBindLoop libs segments sos sps n bi1 acc = .error e ∧
            doBindLoop libs segments sos sps n bi2 acc = .error e) ∨
      (∃ c1 c2 out, doBindLoop libs segments sos sps n bi1 acc = .ok (c1, out) ∧
          doBindLoop libs segments sos sps n bi2 acc = .ok (c2, out) ∧ RecordEquiv c1 c2) := by
  intro n
  induction n with
  | zero =>
    intro bi1 bi2 acc h
    exact Or.inr ⟨bi1, bi2, acc, rfl, rfl, h⟩
  | succ n ih =>
    intro bi1 bi2 acc h
    unfold doBindLoop
    simp only [bind, Except.bind]
    cases himp : Import.new bi1 libs segments sos with
    | error e =>
      have heq : Import.new bi2 libs segments sos = .error e :=
        (Import.new_congr h).symm.trans himp
      simp only [heq]
      exact Or.inl ⟨e, rfl, rfl⟩
    | ok imp =>
      have heq : Import.new bi2 libs segments sos = .ok imp :=
        (Import.new_congr h).symm.trans himp
      simp only [heq]
      have h2 : RecordEquiv { bi1 with seg_offset := wrappingAdd bi1.seg_offset sps }
          { bi2 with seg_offset := wrappingAdd bi2.seg_offset sps } := by
        obtain ⟨e1, e2, e3, e4, e5, e6, e7⟩ := h
        exact ⟨e1, by rw [e2], e3, e4, e5, e6, e7⟩
      exact ih (acc ++ [imp]) h2

/-- Normal form of one loop iteration dispatching on `BIND_OPCODE_SET_DYLIB_ORDINAL_IMM`. -/
theorem step_ordinal_imm_eq {data : List Nat} {libs : List String} {segments : List Segment}
    {ctxSize : Nat} {is_lazy : Bool} {location : BindRange} {s : RunState} {b : Nat}
    (hb : data[s.offset]? = some b)
    (hop : b &&& BIND_OPCODE_MASK = BIND_OPCODE_SET_DYLIB_ORDINAL_IMM) :
    step data libs segments ctxSize is_lazy location s =
    .ok { s with bind_info := { s.bind_info with
                  symbol_library_ordinal := b &&& BIND_IMMEDIATE_MASK },
                 offset := s.offset + 1 } := by
  unfold step readByte
  rw [hb]
  simp only [bind, Except.bind, pure, Except.pure]
  have n0 : b &&& BIND_OPCODE_MASK ≠ BIND_OPCODE_DONE := by rw [hop]; decide
  rw [if_neg n0, if_pos hop]

/-- Normal form of one loop iteration dispatching on `BIND_OPCODE_SET_DYLIB_ORDINAL_ULEB`. -/
theorem step_ordinal_uleb_eq {data : List Nat} {libs : List String} {segments : List Segment}
    {ctxSize : Nat} {is_lazy : Bool} {location : BindRange} {s : RunState} {b : Nat}
    (hb : data[s.offset]? = some b)
    (hop : b &&& BIND_OPCODE_MASK = BIND_OPCODE_SET_DYLIB_ORDINAL_ULEB) :
    step data libs segments ctxSize is_lazy location s =
    match ulebRead data (s.offset + 1) with
    | .error err => .error err
    | .ok v =>
      .ok { s with bind_info := { s.bind_info with symbol_library_ordinal := v.1 % 256 },
                   offset := v.2 } := by
  unfold step readByte
  rw [hb]
  simp only [bind, Except.bind, pure, Except.pure]
  have n0 : b &&& BIND_OPCODE_MASK ≠ BIND_OPCODE_DONE := by rw [hop]; decide
  have n1 : b &&& BIND_OPCODE_MASK ≠ BIND_OPCODE_SET_DYLIB_ORDINAL_IMM := by rw [hop]; decide
  rw [if_neg n0, if_neg n1, if_pos hop]
  repeat' split
  all_goals simp_all

/-- Normal form of one loop iteration dispatching on `BIND_OPCODE_SET_DYLIB_SPECIAL_IMM`. -/
theorem step_special_imm_eq {data : List Nat} {libs : List String} {segments : List Segment}
    {ctxSize : Nat} {is_lazy : Bool} {location : BindRange} {s : RunState} {b : Nat}
    (hb : data[s.offset]? = some b)
    (hop : b &&& BIND_OPCODE_MASK = BIND_OPCODE_SET_DYLIB_SPECIAL_IMM) :
    step data libs segments ctxSize is_lazy location s =
    .ok { s with bind_info := { s.bind_info with
                  special_dylib := b &&& BIND_IMMEDIATE_MASK },
                 offset := s.offset + 1 } := by
  unfold step readByte
  rw [hb]
  simp only [bind, Except.bind, pure, Except.pure]
  have n0 : b &&& BIND_OPCODE_MASK ≠ BIND_OPCODE_DONE := by rw [hop]; decide
  have n1 : b &&& BIND_OPCODE_MASK ≠ BIND_OPCODE_SET_DYLIB_ORDINAL_IMM := by rw [hop]; decide
  have n2 : b &&& BIND_OPCODE_MASK ≠ BIND_OPCODE_SET_DYLIB_ORDINAL_ULEB := by rw [hop]; decide
  rw [if_neg n0, if_neg n1, if_neg n2, if_pos hop]

/-- Normal form of one loop iteration dispatching on `BIND_OPCODE_SET_SYMBOL_TRAILING_FLAGS_IMM`. -/
theorem step_symbol_eq {data : List Nat} {libs : List String} {segments : List Segment}
    {ctxSize : Nat} {is_lazy : Bool} {location : BindRange} {s : RunState} {b : Nat}
    (hb : data[s.offset]? = some b)
    (hop : b &&& BIND_OPCODE_MASK = BIND_OPCODE_SET_SYMBOL_TRAILING_FLAGS_IMM) :
    step data libs segments ctxSize is_lazy location s =
    match strRead data (s.offset + 1) with
    | .error err => .error err
    | .ok nm =>
      .ok { s with
            bind_info :=
              { s.bind_info with symbol_name := nm,
                                 symbol_flags := b &&& BIND_IMMEDIATE_MASK },
            offset := s.offset + 1 + nm.length + 1 } := by
  unfold step readByte
  rw [hb]
  simp only [bind, Except.bind, pure, Except.pure]
  have n0 : b &&& BIND_OPCODE_MASK ≠ BIND_OPCODE_DONE := by rw [hop]; decide
  have n1 : b &&& BIND_OPCODE_MASK ≠ BIND_OPCODE_SET_DYLIB_ORDINAL_IMM := by rw [hop]; decide
  have n2 : b &&& BIND_OPCODE_MASK ≠ BIND_OPCODE_SET_DYLIB_ORDINAL_ULEB := by rw [hop]; decide
  have n3 : b &&& BIND_OPCODE_MASK ≠ BIND_OPCODE_SET_DYLIB_SPECIAL_IMM := by rw [hop]; decide
  rw [if_neg n0, if_neg n1, if_neg n2, if_neg n3, if_pos hop]
  repeat' split
  all_goals simp_all

/-- Normal form of one loop iteration dispatching on `BIND_OPCODE_SET_TYPE_IMM`. -/
theorem step_type_imm_eq {data : List Nat} {libs : List String} {segments : List Segment}
    {ctxSize : Nat} {is_lazy : Bool} {location : BindRange} {s : RunState} {b : Nat}
    (hb : data[s.offset]? = some b)
    (hop : b &&& BIND_OPCODE_MASK = BIND_OPCODE_SET_TYPE_IMM) :
    step data libs segments ctxSize is_lazy location s =
    .ok { s with bind_info := { s.bind_info with bind_type := b &&& BIND_IMMEDIATE_MASK },
                 offset := s.offset + 1 } := by
  unfold step readByte
  rw [hb]
  simp only [bind, Except.bind, pure, Except.pure]
  have n0 : b &&& BIND_OPCODE_MASK ≠ BIND_OPCODE_DONE := by rw [hop]; decide
  have n1 : b &&& BIND_OPCODE_MASK ≠ BIND_OPCODE_SET_DYLIB_ORDINAL_IMM := by rw [hop]; decide
  have n2 : b &&& BIND_OPCODE_MASK ≠ BIND_OPCODE_SET_DYLIB_ORDINAL_ULEB := by rw [hop]; decide
  have n3 : b &&& BIND_OPCODE_MASK ≠ BIND_OPCODE_SET_DYLIB_SPECIAL_IMM := by rw [hop]; decide
  have n4 : b &&& BIND_OPCODE_MASK ≠ BIND_OPCODE_SET_SYMBOL_TRAILING_FLAGS_IMM := by rw [hop]; decide
  rw [if_neg n0, if_neg n1, if_neg n2, if_neg n3, if_neg n4, if_pos hop]

/-- Normal form of one loop iteration dispatching on `BIND_OPCODE_SET_ADDEND_SLEB`. -/
theorem step_addend_eq {data : List Nat} {libs : List String} {segments : List Segment}
    {ctxSize : Nat} {is_lazy : Bool} {location : BindRange} {s : RunState} {b : Nat}
    (hb : data[s.offset]? = some b)
    (hop : b &&& BIND_OPCODE_MASK = BIND_OPCODE_SET_ADDEND_SLEB) :
    step data libs segments ctxSize is_lazy location s =
    match slebRead data (s.offset + 1) with
    | .error err => .error err
    | .ok v =>
      .ok { s with bind_info := { s.bind_info with addend := v.1 }, offset := v.2 } := by
  unfold step readByte
  rw [hb]
  simp only [bind, Except.bind, pure, Except.pure]
  have n0 : b &&& BIND_OPCODE_MASK ≠ BIND_OPCODE_DONE := by rw [hop]; decide
  have n1 : b &&& BIND_OPCODE_MASK ≠ BIND_OPCODE_SET_DYLIB_ORDINAL_IMM := by rw [hop]; decide
  have n2 : b &&& BIND_OPCODE_MASK ≠ BIND_OPCODE_SET_DYLIB_ORDINAL_ULEB := by rw [hop]; decide
  have n3 : b &&& BIND_OPCODE_MASK ≠ BIND_OPCODE_SET_DYLIB_SPECIAL_IMM := by rw [hop]; decide
  have n4 : b &&& BIND_OPCODE_MASK ≠ BIND_OPCODE_SET_SYMBOL_TRAILING_FLAGS_IMM := by rw [hop]; decide
  have n5 : b &&& BIND_OPCODE_MASK ≠ BIND_OPCODE_SET_TYPE_IMM := by rw [hop]; decide
  rw [if_neg n0, if_neg n1, if_neg n2, if_neg n3, if_neg n4, if_neg n5, if_pos hop]
  repeat' split
  all_goals simp_all

/-- Normal form of one loop iteration dispatching on `BIND_OPCODE_SET_SEGMENT_AND_OFFSET_ULEB`. -/
theorem step_segment_eq {data : List Nat} {libs : List String} {segments : List Segment}
    {ctxSize : Nat} {is_lazy : Bool} {location : BindRange} {s : RunState} {b : Nat}
    (hb : data[s.offset]? = some b)
    (hop : b &&& BIND_OPCODE_MASK = BIND_OPCODE_SET_SEGMENT_AND_OFFSET_ULEB) :
    step data libs segments ctxSize is_lazy location s =
    match ulebRead data (s.offset + 1) with
    | .error err => .error err
    | .ok v =>
      .ok { s with
            bind_info :=
              { s.bind_info with seg_index := b &&& BIND_IMMEDIATE_MASK,
                                 seg_offset := v.1 },
            offset := v.2 } := by
  unfold step readByte
  rw [hb]
  simp only [bind, Except.bind, pure, Except.pure]
  have n0 : b &&& BIND_OPCODE_MASK ≠ BIND_OPCODE_DONE := by rw [hop]; decide
  have n1 : b &&& BIND_OPCODE_MASK ≠ BIND_OPCODE_SET_DYLIB_ORDINAL_IMM := by rw [hop]; decide
  have n2 : b &&& BIND_OPCODE_MASK ≠ BIND_OPCODE_SET_DYLIB_ORDINAL_ULEB := by rw [hop]; decide
  have n3 : b &&& BIND_OPCODE_MASK ≠ BIND_OPCODE_SET_DYLIB_SPECIAL_IMM := by rw [hop]; decide
  have n4 : b &&& BIND_OPCODE_MASK ≠ BIND_OPCODE_SET_SYMBOL_TRAILING_FLAGS_IMM := by rw [hop]; decide
  have n5 : b &&& BIND_OPCODE_MASK ≠ BIND_OPCODE_SET_TYPE_IMM := by rw [hop]; decide
  have n6 : b &&& BIND_OPCODE_MASK ≠ BIND_OPCODE_SET_ADDEND_SLEB := by rw [hop]; decide
  rw [if_neg n0, if_neg n1, if_neg n2, if_neg n3, if_neg n4, if_neg n5, if_neg n6, if_pos hop]
  repeat' split
  all_goals simp_all

/-- Normal form of one loop iteration dispatching on `BIND_OPCODE_ADD_ADDR_ULEB`. -/
theorem step_add_addr_eq {data : List Nat} {libs : List String} {segments : List Segment}
    {ctxSize : Nat} {is_lazy : Bool} {location : BindRange} {s : RunState} {b : Nat}
    (hb : data[s.offset]? = some b)
    (hop : b &&& BIND_OPCODE_MASK = BIND_OPCODE_ADD_ADDR_ULEB) :
    step data libs segments ctxSize is_lazy location s =
    match ulebRead data (s.offset + 1) with
    | .error err => .error err
    | .ok v =>
      .ok { s with bind_info := { s.bind_info with
                    seg_offset := wrappingAdd s.bind_info.seg_offset v.1 },
                   offset := v.2 } := by
  unfold step readByte
  rw [hb]
  simp only [bind, Except.bind, pure, Except.pure]
  have n0 : b &&& BIND_OPCODE_MASK ≠ BIND_OPCODE_DONE := by rw [hop]; decide
  have n1 : b &&& BIND_OPCODE_MASK ≠ BIND_OPCODE_SET_DYLIB_ORDINAL_IMM := by rw [hop]; decide
  have n2 : b &&& BIND_OPCODE_MASK ≠ BIND_OPCODE_SET_DYLIB_ORDINAL_ULEB := by rw [hop]; decide
  have n3 : b &&& BIND_OPCODE_MASK ≠ BIND_OPCODE_SET_DYLIB_SPECIAL_IMM := by rw [hop]; decide
  have n4 : b &&& BIND_OPCODE_MASK ≠ BIND_OPCODE_SET_SYMBOL_TRAILING_FLAGS_IMM := by rw [hop]; decide
  have n5 : b &&& BIND_OPCODE_MASK ≠ BIND_OPCODE_SET_TYPE_IMM := by rw [hop]; decide
  have n6 : b &&& BIND_OPCODE_MASK ≠ BIND_OPCODE_SET_ADDEND_SLEB := by rw [hop]; decide
  have n7 : b &&& BIND_OPCODE_MASK ≠ BIND_OPCODE_SET_SEGMENT_AND_OFFSET_ULEB := by rw [hop]; decide
  rw [if_neg n0, if_neg n1, if_neg n2, if_neg n3, if_neg n4, if_neg n5, if_neg n6, if_neg n7, if_pos hop]
  repeat' split
  all_goals simp_all

/-- Normal form of one loop iteration dispatching on `BIND_OPCODE_DO_BIND`. -/
theorem step_do_bind_eq {data : List Nat} {libs : List String} {segments : List Segment}
    {ctxSize : Nat} {is_lazy : Bool} {location : BindRange} {s : RunState} {b : Nat}
    (hb : data[s.offset]? = some b)
    (hop : b &&& BIND_OPCODE_MASK = BIND_OPCODE_DO_BIND) :
    step data libs segments ctxSize is_lazy location s =
    match Import.new s.bind_info libs segments s.start_of_sequence with
    | .error err => .error err
    | .ok imp =>
      .ok { s with imports := s.imports ++ [imp],
                   bind_info := { s.bind_info with
                     seg_offset := wrappingAdd s.bind_info.seg_offset ctxSize },
                   offset := s.offset + 1 } := by
  unfold step readByte
  rw [hb]
  simp only [bind, Except.bind, pure, Except.pure]
  have n0 : b &&& BIND_OPCODE_MASK ≠ BIND_OPCODE_DONE := by rw [hop]; decide
  have n1 : b &&& BIND_OPCODE_MASK ≠ BIND_OPCODE_SET_DYLIB_ORDINAL_IMM := by rw [hop]; decide
  have n2 : b &&& BIND_OPCODE_MASK ≠ BIND_OPCODE_SET_DYLIB_ORDINAL_ULEB := by rw [hop]; decide
  have n3 : b &&& BIND_OPCODE_MASK ≠ BIND_OPCODE_SET_DYLIB_SPECIAL_IMM := by rw [hop]; decide
  have n4 : b &&& BIND_OPCODE_MASK ≠ BIND_OPCODE_SET_SYMBOL_TRAILING_FLAGS_IMM := by rw [hop]; decide
  have n5 : b &&& BIND_OPCODE_MASK ≠ BIND_OPCODE_SET_TYPE_IMM := by rw [hop]; decide
  have n6 : b &&& BIND_OPCODE_MASK ≠ BIND_OPCODE_SET_ADDEND_SLEB := by rw [hop]; decide
  have n7 : b &&& BIND_OPCODE_MASK ≠ BIND_OPCODE_SET_SEGMENT_AND_OFFSET_ULEB := by rw [hop]; decide
  have n8 : b &&& BIND_OPCODE_MASK ≠ BIND_OPCODE_ADD_ADDR_ULEB := by rw [hop]; decide
  rw [if_neg n0, if_neg n1, if_neg n2, if_neg n3, if_neg n4, if_neg n5, if_neg n6, if_neg n7, if_neg n8, if_pos hop]
  repeat' split
  all_goals simp_all

/-- Normal form of one loop iteration dispatching on `BIND_OPCODE_DO_BIND_ADD_ADDR_ULEB`. -/
theorem step_do_bind_uleb_eq {data : List Nat} {libs : List String} {segments : List Segment}
    {ctxSize : Nat} {is_lazy : Bool} {location : BindRange} {s : RunState} {b : Nat}
    (hb : data[s.offset]? = some b)
    (hop : b &&& BIND_OPCODE_MASK = BIND_OPCODE_DO_BIND_ADD_ADDR_ULEB) :
    step data libs segments ctxSize is_lazy location s =
    match Import.new s.bind_info libs segments s.start_of_sequence with
    | .error err => .error err
    | .ok imp =>
      match ulebRead data (s.offset + 1) with
      | .error err => .error err
      | .ok v =>
        .ok { s with imports := s.imports ++ [imp],
                     bind_info := { s.bind_info with
                       seg_offset :=
                         wrappingAdd (wrappingAdd s.bind_info.seg_offset v.1) ctxSize },
                     offset := v.2 } := by
  unfold step readByte
  rw [hb]
  simp only [bind, Except.bind, pure, Except.pure]
  have n0 : b &&& BIND_OPCODE_MASK ≠ BIND_OPCODE_DONE := by rw [hop]; decide
  have n1 : b &&& BIND_OPCODE_MASK ≠ BIND_OPCODE_SET_DYLIB_ORDINAL_IMM := by rw [hop]; decide
  have n2 : b &&& BIND_OPCODE_MASK ≠ BIND_OPCODE_SET_DYLIB_ORDINAL_ULEB := by rw [hop]; decide
  have n3 : b &&& BIND_OPCODE_MASK ≠ BIND_OPCODE_SET_DYLIB_SPECIAL_IMM := by rw [hop]; decide
  have n4 : b &&& BIND_OPCODE_MASK ≠ BIND_OPCODE_SET_SYMBOL_TRAILING_FLAGS_IMM := by rw [hop]; decide
  have n5 : b &&& BIND_OPCODE_MASK ≠ BIND_OPCODE_SET_TYPE_IMM := by rw [hop]; decide
  have n6 : b &&& BIND_OPCODE_MASK ≠ BIND_OPCODE_SET_ADDEND_SLEB := by rw [hop]; decide
  have n7 : b &&& BIND_OPCODE_MASK ≠ BIND_OPCODE_SET_SEGMENT_AND_OFFSET_ULEB := by rw [hop]; decide
  have n8 : b &&& BIND_OPCODE_MASK ≠ BIND_OPCODE_ADD_ADDR_ULEB := by rw [hop]; decide
  have n9 : b &&& BIND_OPCODE_MASK ≠ BIND_OPCODE_DO_BIND := by rw [hop]; decide
  rw [if_neg n0, if_neg n1, if_neg n2, if_neg n3, if_neg n4, if_neg n5, if_neg n6, if_neg n7, if_neg n8, if_neg n9, if_pos hop]
  repeat' split
  all_goals simp_all

/-- Normal form of one loop iteration dispatching on `BIND_OPCODE_DO_BIND_ADD_ADDR_IMM_SCALED`. -/
theorem step_do_bind_scaled_eq {data : List Nat} {libs : List String} {segments : List Segment}
    {ctxSize : Nat} {is_lazy : Bool} {location : BindRange} {s : RunState} {b : Nat}
    (hb : data[s.offset]? = some b)
    (hop : b &&& BIND_OPCODE_MASK = BIND_OPCODE_DO_BIND_ADD_ADDR_IMM_SCALED) :
    step data libs segments ctxSize is_lazy location s =
    match Import.new s.bind_info libs segments s.start_of_sequence with
    | .error err => .error err
    | .ok imp =>
      .ok { s with imports := s.imports ++ [imp],
                   bind_info := { s.bind_info with
                     seg_offset :=
                       wrappingAdd
                         (wrappingAdd s.bind_info.seg_offset
                           ((b &&& BIND_IMMEDIATE_MASK) * ctxSize)) ctxSize },
                   offset := s.offset + 1 } := by
  unfold step readByte
  rw [hb]
  simp only [bind, Except.bind, pure, Except.pure]
  have n0 : b &&& BIND_OPCODE_MASK ≠ BIND_OPCODE_DONE := by rw [hop]; decide
  have n1 : b &&& BIND_OPCODE_MASK ≠ BIND_OPCODE_SET_DYLIB_ORDINAL_IMM := by rw [hop]; decide
  have n2 : b &&& BIND_OPCODE_MASK ≠ BIND_OPCODE_SET_DYLIB_ORDINAL_ULEB := by rw [hop]; decide
  have n3 : b &&& BIND_OPCODE_MASK ≠ BIND_OPCODE_SET_DYLIB_SPECIAL_IMM := by rw [hop]; decide
  have n4 : b &&& BIND_OPCODE_MASK ≠ BIND_OPCODE_SET_SYMBOL_TRAILING_FLAGS_IMM := by rw [hop]; decide
  have n5 : b &&& BIND_OPCODE_MASK ≠ BIND_OPCODE_SET_TYPE_IMM := by rw [hop]; decide
  have n6 : b &&& BIND_OPCODE_MASK ≠ BIND_OPCODE_SET_ADDEND_SLEB := by rw [hop]; decide
  have n7 : b &&& BIND_OPCODE_MASK ≠ BIND_OPCODE_SET_SEGMENT_AND_OFFSET_ULEB := by rw [hop]; decide
  have n8 : b &&& BIND_OPCODE_MASK ≠ BIND_OPCODE_ADD_ADDR_ULEB := by rw [hop]; decide
  have n9 : b &&& BIND_OPCODE_MASK ≠ BIND_OPCODE_DO_BIND := by rw [hop]; decide
  have n10 : b &&& BIND_OPCODE_MASK ≠ BIND_OPCODE_DO_BIND_ADD_ADDR_ULEB := by rw [hop]; decide
  rw [if_neg n0, if_neg n1, if_neg n2, if_neg n3, if_neg n4, if_neg n5, if_neg n6, if_neg n7, if_neg n8, if_neg n9, if_neg n10, if_pos hop]
  repeat' split
  all_goals simp_all

/-- Normal form of one loop iteration dispatching on `BIND_OPCODE_DO_BIND_ULEB_TIMES_SKIPPING_ULEB`. -/
theorem step_do_bind_times_eq {data : List Nat} {libs : List String} {segments : List Segment}
    {ctxSize : Nat} {is_lazy : Bool} {location : BindRange} {s : RunState} {b : Nat}
    (hb : data[s.offset]? = some b)
    (hop : b &&& BIND_OPCODE_MASK = BIND_OPCODE_DO_BIND_ULEB_TIMES_SKIPPING_ULEB) :
    step data libs segments ctxSize is_lazy location s =
    match ulebRead data (s.offset + 1) with
    | .error err => .error err
    | .ok v1 =>
      match ulebRead data v1.2 with
      | .error err => .error err
      | .ok v2 =>
        match checkedAdd v2.1 ctxSize with
        | .error err => .error err
        | .ok sps =>
          match doBindLoop libs segments s.start_of_sequence sps v1.1
              s.bind_info s.imports with
          | .error err => .error err
          | .ok q => .ok { s with bind_info := q.1, imports := q.2, offset := v2.2 } := by
  unfold step readByte
  rw [hb]
  simp only [bind, Except.bind, pure, Except.pure]
  have n0 : b &&& BIND_OPCODE_MASK ≠ BIND_OPCODE_DONE := by rw [hop]; decide
  have n1 : b &&& BIND_OPCODE_MASK ≠ BIND_OPCODE_SET_DYLIB_ORDINAL_IMM := by rw [hop]; decide
  have n2 : b &&& BIND_OPCODE_MASK ≠ BIND_OPCODE_SET_DYLIB_ORDINAL_ULEB := by rw [hop]; decide
  have n3 : b &&& BIND_OPCODE_MASK ≠ BIND_OPCODE_SET_DYLIB_SPECIAL_IMM := by rw [hop]; decide
  have n4 : b &&& BIND_OPCODE_MASK ≠ BIND_OPCODE_SET_SYMBOL_TRAILING_FLAGS_IMM := by rw [hop]; decide
  have n5 : b &&& BIND_OPCODE_MASK ≠ BIND_OPCODE_SET_TYPE_IMM := by rw [hop]; decide
  have n6 : b &&& BIND_OPCODE_MASK ≠ BIND_OPCODE_SET_ADDEND_SLEB := by rw [hop]; decide
  have n7 : b &&& BIND_OPCODE_MASK ≠ BIND_OPCODE_SET_SEGMENT_AND_OFFSET_ULEB := by rw [hop]; decide
  have n8 : b &&& BIND_OPCODE_MASK ≠ BIND_OPCODE_ADD_ADDR_ULEB := by rw [hop]; decide
  have n9 : b &&& BIND_OPCODE_MASK ≠ BIND_OPCODE_DO_BIND := by rw [hop]; decide
  have n10 : b &&& BIND_OPCODE_MASK ≠ BIND_OPCODE_DO_BIND_ADD_ADDR_ULEB := by rw [hop]; decide
  have n11 : b &&& BIND_OPCODE_MASK ≠ BIND_OPCODE_DO_BIND_ADD_ADDR_IMM_SCALED := by rw [hop]; decide
  rw [if_neg n0, if_neg n1, if_neg n2, if_neg n3, if_neg n4, if_neg n5, if_neg n6, if_neg n7, if_neg n8, if_neg n9, if_neg n10, if_neg n11, if_pos hop]
  repeat' split
  all_goals simp_all

/-- One loop iteration always advances the cursor. -/
theorem consume_gt {data : List Nat} {off off2 : Nat} (h : consume data off = some off2) :
    off < off2 := by
  unfold consume at h
  cases hb : data[off]? with
  | none => rw [hb] at h; cases h
  | some b =>
    rw [hb] at h
    simp only [] at h
    split at h
    · cases hu : ulebBytes (data.drop (off + 1)) with
      | none => simp only [hu] at h; cases h
      | some p => simp only [hu] at h; have := Option.some.inj h; omega
    · split at h
      · cases hs : strRead data (off + 1) with
        | error e => simp only [hs] at h; cases h
        | ok nm => simp only [hs] at h; have := Option.some.inj h; omega
      · split at h
        · cases hu1 : ulebBytes (data.drop (off + 1)) with
          | none => simp only [hu1] at h; cases h
          | some p1 =>
            simp only [hu1] at h
            cases hu2 : ulebBytes (data.drop (off + 1 + p1.2)) with
            | none => simp only [hu2] at h; cases h
            | some p2 => simp only [hu2] at h; have := Option.some.inj h; omega
        · have := Option.some.inj h; omega

/-- Every record is `RecordEquiv` to itself. -/
theorem RecordEquiv.refl (bi : BindInformation) : RecordEquiv bi bi :=
  ⟨rfl, rfl, rfl, rfl, rfl, rfl, rfl⟩

/-- Lockstep congruence of one loop iteration: on two buffers agreeing over
the bytes the iteration consumes, from states equal up to `bind_type` and
`special_dylib`, both iterations fail with the same fault or succeed with the
same cursor, marker and imports, and records again equal up to those fields. -/
theorem step_congr {data1 data2 : List Nat} {libs : List String} {segments : List Segment}
    {ctxSize : Nat} {is_lazy : Bool} {location : BindRange} {s1 s2 : RunState} {off2 : Nat}
    (hoff : s2.offset = s1.offset)
    (hrec : RecordEquiv s1.bind_info s2.bind_info)
    (hsos : s1.start_of_sequence = s2.start_of_sequence)
    (himp : s1.imports = s2.imports)
    (hcons : consume data1 s1.offset = some off2)
    (hagree : ∀ p, s1.offset ≤ p → p < off2 → data1[p]? = data2[p]?) :
    (∃ e, step data1 libs segments ctxSize is_lazy location s1 = .error e ∧
          step data2 libs segments ctxSize is_lazy location s2 = .error e) ∨
    (∃ t1 t2, step data1 libs segments ctxSize is_lazy location s1 = .ok t1 ∧
        step data2 libs segments ctxSize is_lazy location s2 = .ok t2 ∧
        t1.offset = off2 ∧ t2.offset = off2 ∧ RecordEquiv t1.bind_info t2.bind_info ∧
        t1.start_of_sequence = t2.start_of_sequence ∧ t1.imports = t2.imports) := by
  have hgt : s1.offset < off2 := consume_gt hcons
  unfold consume at hcons
  cases hb1 : data1[s1.offset]? with
  | none => rw [hb1] at hcons; cases hcons
  | some b =>
    rw [hb1] at hcons
    simp only [] at hcons
    have hb2 : data2[s2.offset]? = some b := by
      rw [hoff, ← hagree s1.offset (Nat.le_refl _) hgt]
      exact hb1
    obtain ⟨e1, e2, e3, e4, e5, e6, e7⟩ := hrec
    by_cases h0 : b &&& BIND_OPCODE_MASK = BIND_OPCODE_DONE
    · have hc1 : ¬(b &&& BIND_OPCODE_MASK = BIND_OPCODE_SET_DYLIB_ORDINAL_ULEB ∨
          b &&& BIND_OPCODE_MASK = BIND_OPCODE_SET_ADDEND_SLEB ∨
          b &&& BIND_OPCODE_MASK = BIND_OPCODE_SET_SEGMENT_AND_OFFSET_ULEB ∨
          b &&& BIND_OPCODE_MASK = BIND_OPCODE_ADD_ADDR_ULEB ∨
          b &&& BIND_OPCODE_MASK = BIND_OPCODE_DO_BIND_ADD_ADDR_ULEB) := by rw [h0]; decide
      have hc2 : ¬(b &&& BIND_OPCODE_MASK = BIND_OPCODE_SET_SYMBOL_TRAILING_FLAGS_IMM) := by
        rw [h0]; decide
      have hc3 : ¬(b &&& BIND_OPCODE_MASK = BIND_OPCODE_DO_BIND_ULEB_TIMES_SKIPPING_ULEB) := by
        rw [h0]; decide
      rw [if_neg hc1, if_neg hc2, if_neg hc3] at hcons
      obtain rfl : s1.offset + 1 = off2 := Option.some.inj hcons
      refine Or.inr ⟨_, _, step_done_eq hb1 h0, step_done_eq hb2 h0, rfl, by rw [hoff],
        RecordEquiv.refl _, by rw [hoff], himp⟩
    by_cases h1 : b &&& BIND_OPCODE_MASK = BIND_OPCODE_SET_DYLIB_ORDINAL_IMM
    · have hc1 : ¬(b &&& BIND_OPCODE_MASK = BIND_OPCODE_SET_DYLIB_ORDINAL_ULEB ∨
          b &&& BIND_OPCODE_MASK = BIND_OPCODE_SET_ADDEND_SLEB ∨
          b &&& BIND_OPCODE_MASK = BIND_OPCODE_SET_SEGMENT_AND_OFFSET_ULEB ∨
          b &&& BIND_OPCODE_MASK = BIND_OPCODE_ADD_ADDR_ULEB ∨
          b &&& BIND_OPCODE_MASK = BIND_OPCODE_DO_BIND_ADD_ADDR_ULEB) := by rw [h1]; decide
      have hc2 : ¬(b &&& BIND_OPCODE_MASK = BIND_OPCODE_SET_SYMBOL_TRAILING_FLAGS_IMM) := by
        rw [h1]; decide
      have hc3 : ¬(b &&& BIND_OPCODE_MASK = BIND_OPCODE_DO_BIND_ULEB_TIMES_SKIPPING_ULEB) := by
        rw [h1]; decide
      rw [if_neg hc1, if_neg hc2, if_neg hc3] at hcons
      obtain rfl : s1.offset + 1 = off2 := Option.some.inj hcons
      refine Or.inr ⟨_, _, step_ordinal_imm_eq hb1 h1, step_ordinal_imm_eq hb2 h1, rfl,
        by rw [hoff], ⟨e1, e2, rfl, e4, e5, e6, e7⟩, hsos, himp⟩
    by_cases h2 : b &&& BIND_OPCODE_MASK = BIND_OPCODE_SET_DYLIB_ORDINAL_ULEB
    · have hc1 : b &&& BIND_OPCODE_MASK = BIND_OPCODE_SET_DYLIB_ORDINAL_ULEB ∨
          b &&& BIND_OPCODE_MASK = BIND_OPCODE_SET_ADDEND_SLEB ∨
          b &&& BIND_OPCODE_MASK = BIND_OPCODE_SET_SEGMENT_AND_OFFSET_ULEB ∨
          b &&& BIND_OPCODE_MASK = BIND_OPCODE_ADD_ADDR_ULEB ∨
          b &&& BIND_OPCODE_MASK = BIND_OPCODE_DO_BIND_ADD_ADDR_ULEB := Or.inl h2
      rw [if_pos hc1] at hcons
      cases hu : ulebBytes (data1.drop (s1.offset + 1)) with
      | none => simp only [hu] at hcons; cases hcons
      | some p =>
        simp only [hu] at hcons
        obtain rfl : s1.offset + 1 + p.2 = off2 := Option.some.inj hcons
        have hr1 : ulebRead data1 (s1.offset + 1) =
            .ok (p.1 % U64LIMIT, s1.offset + 1 + p.2) := by
          unfold ulebRead; rw [hu]
        have hr2 : ulebRead data2 (s1.offset + 1) =
            .ok (p.1 % U64LIMIT, s1.offset + 1 + p.2) :=
          ulebRead_congr hr1 fun q hq1 hq2 => hagree q (by omega) hq2
        refine Or.inr
          ⟨{ s1 with
               bind_info :=
                 { s1.bind_info with symbol_library_ordinal := p.1 % U64LIMIT % 256 },
               offset := s1.offset + 1 + p.2 },
           { s2 with
               bind_info :=
                 { s2.bind_info with symbol_library_ordinal := p.1 % U64LIMIT % 256 },
               offset := s1.offset + 1 + p.2 },
           ?_, ?_, rfl, rfl, ⟨e1, e2, rfl, e4, e5, e6, e7⟩, hsos, himp⟩
        · rw [step_ordinal_uleb_eq hb1 h2]
          simp only [hr1]
        · rw [step_ordinal_uleb_eq hb2 h2, hoff]
          simp only [hr2]
    by_cases h3 : b &&& BIND_OPCODE_MASK = BIND_OPCODE_SET_DYLIB_SPECIAL_IMM
    · have hc1 : ¬(b &&& BIND_OPCODE_MASK = BIND_OPCODE_SET_DYLIB_ORDINAL_ULEB ∨
          b &&& BIND_OPCODE_MASK = BIND_OPCODE_SET_ADDEND_SLEB ∨
          b &&& BIND_OPCODE_MASK = BIND_OPCODE_SET_SEGMENT_AND_OFFSET_ULEB ∨
          b &&& BIND_OPCODE_MASK = BIND_OPCODE_ADD_ADDR_ULEB ∨
          b &&& BIND_OPCODE_MASK = BIND_OPCODE_DO_BIND_ADD_ADDR_ULEB) := by rw [h3]; decide
      have hc2 : ¬(b &&& BIND_OPCODE_MASK = BIND_OPCODE_SET_SYMBOL_TRAILING_FLAGS_IMM) := by
        rw [h3]; decide
      have hc3 : ¬(b &&& BIND_OPCODE_MASK = BIND_OPCODE_DO_BIND_ULEB_TIMES_SKIPPING_ULEB) := by
        rw [h3]; decide
      rw [if_neg hc1, if_neg hc2, if_neg hc3] at hcons
      obtain rfl : s1.offset + 1 = off2 := Option.some.inj hcons
      refine Or.inr ⟨_, _, step_special_imm_eq hb1 h3, step_special_imm_eq hb2 h3, rfl,
        by rw [hoff], ⟨e1, e2, e3, e4, e5, e6, e7⟩, hsos, himp⟩
    by_cases h4 : b &&& BIND_OPCODE_MASK = BIND_OPCODE_SET_SYMBOL_TRAILING_FLAGS_IMM
    · have hc1 : ¬(b &&& BIND_OPCODE_MASK = BIND_OPCODE_SET_DYLIB_ORDINAL_ULEB ∨
          b &&& BIND_OPCODE_MASK = BIND_OPCODE_SET_ADDEND_SLEB ∨
          b &&& BIND_OPCODE_MASK = BIND_OPCODE_SET_SEGMENT_AND_OFFSET_ULEB ∨
          b &&& BIND_OPCODE_MASK = BIND_OPCODE_ADD_ADDR_ULEB ∨
          b &&& BIND_OPCODE_MASK = BIND_OPCODE_DO_BIND_ADD_ADDR_ULEB) := by rw [h4]; decide
      rw [if_neg hc1, if_pos h4] at hcons
      cases hs : strRead data1 (s1.offset + 1) with
      | error e => simp only [hs] at hcons; cases hcons
      | ok nm =>
        simp only [hs] at hcons
        obtain rfl : s1.offset + 1 + nm.length + 1 = off2 := Option.some.inj hcons
        have hs2 : strRead data2 (s1.offset + 1) = .ok nm :=
          strRead_congr hs fun q hq1 hq2 => hagree q (by omega) (by omega)
        refine Or.inr
          ⟨{ s1 with
               bind_info :=
                 { s1.bind_info with
                     symbol_name := nm, symbol_flags := b &&& BIND_IMMEDIATE_MASK },
               offset := s1.offset + 1 + nm.length + 1 },
           { s2 with
               bind_info :=
                 { s2.bind_info with
                     symbol_name := nm, symbol_flags := b &&& BIND_IMMEDIATE_MASK },
               offset := s1.offset + 1 + nm.length + 1 },
           ?_, ?_, rfl, rfl, ⟨e1, e2, e3, rfl, rfl, e6, e7⟩, hsos, himp⟩
        · rw [step_symbol_eq hb1 h4]
          simp only [hs]
        · rw [step_symbol_eq hb2 h4, hoff]
          simp only [hs2]
    by_cases h5 : b &&& BIND_OPCODE_MASK = BIND_OPCODE_SET_TYPE_IMM
    · have hc1 : ¬(b &&& BIND_OPCODE_MASK = BIND_OPCODE_SET_DYLIB_ORDINAL_ULEB ∨
          b &&& BIND_OPCODE_MASK = BIND_OPCODE_SET_ADDEND_SLEB ∨
          b &&& BIND_OPCODE_MASK = BIND_OPCODE_SET_SEGMENT_AND_OFFSET_ULEB ∨
          b &&& BIND_OPCODE_MASK = BIND_OPCODE_ADD_ADDR_ULEB ∨
          b &&& BIND_OPCODE_MASK = BIND_OPCODE_DO_BIND_ADD_ADDR_ULEB) := by rw [h5]; decide
      have hc2 : ¬(b &&& BIND_OPCODE_MASK = BIND_OPCODE_SET_SYMBOL_TRAILING_FLAGS_IMM) := by
        rw [h5]; decide
      have hc3 : ¬(b &&& BIND_OPCODE_MASK = BIND_OPCODE_DO_BIND_ULEB_TIMES_SKIPPING_ULEB) := by
        rw [h5]; decide
      rw [if_neg hc1, if_neg hc2, if_neg hc3] at hcons
      obtain rfl : s1.offset + 1 = off2 := Option.some.inj hcons
      refine Or.inr ⟨_, _, step_type_imm_eq hb1 h5, step_type_imm_eq hb2 h5, rfl,
        by rw [hoff], ⟨e1, e2, e3, e4, e5, e6, e7⟩, hsos, himp⟩
    by_cases h6 : b &&& BIND_OPCODE_MASK = BIND_OPCODE_SET_ADDEND_SLEB
    · have hc1 : b &&& BIND_OPCODE_MASK = BIND_OPCODE_SET_DYLIB_ORDINAL_ULEB ∨
          b &&& BIND_OPCODE_MASK = BIND_OPCODE_SET_ADDEND_SLEB ∨
          b &&& BIND_OPCODE_MASK = BIND_OPCODE_SET_SEGMENT_AND_OFFSET_ULEB ∨
          b &&& BIND_OPCODE_MASK = BIND_OPCODE_ADD_ADDR_ULEB ∨
          b &&& BIND_OPCODE_MASK = BIND_OPCODE_DO_BIND_ADD_ADDR_ULEB := Or.inr (Or.inl h6)
      rw [if_pos hc1] at hcons
      cases hu : ulebBytes (data1.drop (s1.offset + 1)) with
      | none => simp only [hu] at hcons; cases hcons
      | some p =>
        simp only [hu] at hcons
        obtain rfl : s1.offset + 1 + p.2 = off2 := Option.some.inj hcons
        have hr1 : slebRead data1 (s1.offset + 1) =
            .ok (toI64 (if 2 ^ (7 * p.2 - 1) ≤ p.1 then (p.1 : Int) - 2 ^ (7 * p.2)
                        else (p.1 : Int)),
                 s1.offset + 1 + p.2) := by
          unfold slebRead; rw [hu]
        have hr2 : slebRead data2 (s1.offset + 1) =
            .ok (toI64 (if 2 ^ (7 * p.2 - 1) ≤ p.1 then (p.1 : Int) - 2 ^ (7 * p.2)
                        else (p.1 : Int)),
                 s1.offset + 1 + p.2) :=
          slebRead_congr hr1 fun q hq1 hq2 => hagree q (by omega) hq2
        refine Or.inr
          ⟨{ s1 with
               bind_info :=
                 { s1.bind_info with
                     addend :=
                       toI64 (if 2 ^ (7 * p.2 - 1) ≤ p.1 then (p.1 : Int) - 2 ^ (7 * p.2)
                              else (p.1 : Int)) },
               offset := s1.offset + 1 + p.2 },
           { s2 with
               bind_info :=
                 { s2.bind_info with
                     addend :=
                       toI64 (if 2 ^ (7 * p.2 - 1) ≤ p.1 then (p.1 : Int) - 2 ^ (7 * p.2)
                              else (p.1 : Int)) },
               offset := s1.offset + 1 + p.2 },
           ?_, ?_, rfl, rfl, ⟨e1, e2, e3, e4, e5, rfl, e7⟩, hsos, himp⟩
        · rw [step_addend_eq hb1 h6]
          simp only [hr1]
        · rw [step_addend_eq hb2 h6, hoff]
          simp only [hr2]
    by_cases h7 : b &&& BIND_OPCODE_MASK = BIND_OPCODE_SET_SEGMENT_AND_OFFSET_ULEB
    · have hc1 : b &&& BIND_OPCODE_MASK = BIND_OPCODE_SET_DYLIB_ORDINAL_ULEB ∨
          b &&& BIND_OPCODE_MASK = BIND_OPCODE_SET_ADDEND_SLEB ∨
          b &&& BIND_OPCODE_MASK = BIND_OPCODE_SET_SEGMENT_AND_OFFSET_ULEB ∨
          b &&& BIND_OPCODE_MASK = BIND_OPCODE_ADD_ADDR_ULEB ∨
          b &&& BIND_OPCODE_MASK = BIND_OPCODE_DO_BIND_ADD_ADDR_ULEB := Or.inr (Or.inr (Or.inl h7))
      rw [if_pos hc1] at hcons
      cases hu : ulebBytes (data1.drop (s1.offset + 1)) with
      | none => simp only [hu] at hcons; cases hcons
      | some p =>
        simp only [hu] at hcons
        obtain rfl : s1.offset + 1 + p.2 = off2 := Option.some.inj hcons
        have hr1 : ulebRead data1 (s1.offset + 1) =
            .ok (p.1 % U64LIMIT, s1.offset + 1 + p.2) := by
          unfold ulebRead; rw [hu]
        have hr2 : ulebRead data2 (s1.offset + 1) =
            .ok (p.1 % U64LIMIT, s1.offset + 1 + p.2) :=
          ulebRead_congr hr1 fun q hq1 hq2 => hagree q (by omega) hq2
        refine Or.inr
          ⟨{ s1 with
               bind_info :=
                 { s1.bind_info with
                     seg_index := b &&& BIND_IMMEDIATE_MASK, seg_offset := p.1 % U64LIMIT },
               offset := s1.offset + 1 + p.2 },
           { s2 with
               bind_info :=
                 { s2.bind_info with
                     seg_index := b &&& BIND_IMMEDIATE_MASK, seg_offset := p.1 % U64LIMIT },
               offset := s1.offset + 1 + p.2 },
           ?_, ?_, rfl, rfl, ⟨rfl, rfl, e3, e4, e5, e6, e7⟩, hsos, himp⟩
        · rw [step_segment_eq hb1 h7]
          simp only [hr1]
        · rw [step_segment_eq hb2 h7, hoff]
          simp only [hr2]
    by_cases h8 : b &&& BIND_OPCODE_MASK = BIND_OPCODE_ADD_ADDR_ULEB
    · have hc1 : b &&& BIND_OPCODE_MASK = BIND_OPCODE_SET_DYLIB_ORDINAL_ULEB ∨
          b &&& BIND_OPCODE_MASK = BIND_OPCODE_SET_ADDEND_SLEB ∨
          b &&& BIND_OPCODE_MASK = BIND_OPCODE_SET_SEGMENT_AND_OFFSET_ULEB ∨
          b &&& BIND_OPCODE_MASK = BIND_OPCODE_ADD_ADDR_ULEB ∨
          b &&& BIND_OPCODE_MASK = BIND_OPCODE_DO_BIND_ADD_ADDR_ULEB :=
        Or.inr (Or.inr (Or.inr (Or.inl h8)))
      rw [if_pos hc1] at hcons
      cases hu : ulebBytes (data1.drop (s1.offset + 1)) with
      | none => simp only [hu] at hcons; cases hcons
      | some p =>
        simp only [hu] at hcons
        obtain rfl : s1.offset + 1 + p.2 = off2 := Option.some.inj hcons
        have hr1 : ulebRead data1 (s1.offset + 1) =
            .ok (p.1 % U64LIMIT, s1.offset + 1 + p.2) := by
          unfold ulebRead; rw [hu]
        have hr2 : ulebRead data2 (s1.offset + 1) =
            .ok (p.1 % U64LIMIT, s1.offset + 1 + p.2) :=
          ulebRead_congr hr1 fun q hq1 hq2 => hagree q (by omega) hq2
        refine Or.inr
          ⟨{ s1 with
               bind_info :=
                 { s1.bind_info with
                     seg_offset := wrappingAdd s1.bind_info.seg_offset (p.1 % U64LIMIT) },
               offset := s1.offset + 1 + p.2 },
           { s2 with
               bind_info :=
                 { s2.bind_info with
                     seg_offset := wrappingAdd s2.bind_info.seg_offset (p.1 % U64LIMIT) },
               offset := s1.offset + 1 + p.2 },
           ?_, ?_, rfl, rfl, ⟨e1, by rw [e2], e3, e4, e5, e6, e7⟩, hsos, himp⟩
        · rw [step_add_addr_eq hb1 h8]
          simp only [hr1]
        · rw [step_add_addr_eq hb2 h8, hoff]
          simp only [hr2]
    by_cases h9 : b &&& BIND_OPCODE_MASK = BIND_OPCODE_DO_BIND
    · have hc1 : ¬(b &&& BIND_OPCODE_MASK = BIND_OPCODE_SET_DYLIB_ORDINAL_ULEB ∨
          b &&& BIND_OPCODE_MASK = BIND_OPCODE_SET_ADDEND_SLEB ∨
          b &&& BIND_OPCODE_MASK = BIND_OPCODE_SET_SEGMENT_AND_OFFSET_ULEB ∨
          b &&& BIND_OPCODE_MASK = BIND_OPCODE_ADD_ADDR_ULEB ∨
          b &&& BIND_OPCODE_MASK = BIND_OPCODE_DO_BIND_ADD_ADDR_ULEB) := by rw [h9]; decide
      have hc2 : ¬(b &&& BIND_OPCODE_MASK = BIND_OPCODE_SET_SYMBOL_TRAILING_FLAGS_IMM) := by
        rw [h9]; decide
      have hc3 : ¬(b &&& BIND_OPCODE_MASK = BIND_OPCODE_DO_BIND_ULEB_TIMES_SKIPPING_ULEB) := by
        rw [h9]; decide
      rw [if_neg hc1, if_neg hc2, if_neg hc3] at hcons
      obtain rfl : s1.offset + 1 = off2 := Option.some.inj hcons
      have hN : Import.new s2.bind_info libs segments s2.start_of_sequence =
          Import.new s1.bind_info libs segments s1.start_of_sequence := by
        rw [← hsos]
        exact (Import.new_congr ⟨e1, e2, e3, e4, e5, e6, e7⟩).symm
      cases hI : Import.new s1.bind_info libs segments s1.start_of_sequence with
      | error e =>
        refine Or.inl ⟨e, ?_, ?_⟩
        · rw [step_do_bind_eq hb1 h9]
          simp only [hI]
        · rw [step_do_bind_eq hb2 h9]
          simp only [hN, hI]
      | ok imp =>
        refine Or.inr
          ⟨{ s1 with
               imports := s1.imports ++ [imp],
               bind_info :=
                 { s1.bind_info with
                     seg_offset := wrappingAdd s1.bind_info.seg_offset ctxSize },
               offset := s1.offset + 1 },
           { s2 with
               imports := s2.imports ++ [imp],
               bind_info :=
                 { s2.bind_info with
                     seg_offset := wrappingAdd s2.bind_info.seg_offset ctxSize },
               offset := s2.offset + 1 },
           ?_, ?_, rfl, by rw [hoff], ⟨e1, by rw [e2], e3, e4, e5, e6, e7⟩, hsos,
           by rw [himp]⟩
        · rw [step_do_bind_eq hb1 h9]
          simp only [hI]
        · rw [step_do_bind_eq hb2 h9]
          simp only [hN, hI]
    by_cases h10 : b &&& BIND_OPCODE_MASK = BIND_OPCODE_DO_BIND_ADD_ADDR_ULEB
    · have hc1 : b &&& BIND_OPCODE_MASK = BIND_OPCODE_SET_DYLIB_ORDINAL_ULEB ∨
          b &&& BIND_OPCODE_MASK = BIND_OPCODE_SET_ADDEND_SLEB ∨
          b &&& BIND_OPCODE_MASK = BIND_OPCODE_SET_SEGMENT_AND_OFFSET_ULEB ∨
          b &&& BIND_OPCODE_MASK = BIND_OPCODE_ADD_ADDR_ULEB ∨
          b &&& BIND_OPCODE_MASK = BIND_OPCODE_DO_BIND_ADD_ADDR_ULEB :=
        Or.inr (Or.inr (Or.inr (Or.inr h10)))
      rw [if_pos hc1] at hcons
      cases hu : ulebBytes (data1.drop (s1.offset + 1)) with
      | none => simp only [hu] at hcons; cases hcons
      | some p =>
        simp only [hu] at hcons
        obtain rfl : s1.offset + 1 + p.2 = off2 := Option.some.inj hcons
        have hr1 : ulebRead data1 (s1.offset + 1) =
            .ok (p.1 % U64LIMIT, s1.offset + 1 + p.2) := by
          unfold ulebRead; rw [hu]
        have hr2 : ulebRead data2 (s1.offset + 1) =
            .ok (p.1 % U64LIMIT, s1.offset + 1 + p.2) :=
          ulebRead_congr hr1 fun q hq1 hq2 => hagree q (by omega) hq2
        have hN : Import.new s2.bind_info libs segments s2.start_of_sequence =
            Import.new s1.bind_info libs segments s1.start_of_sequence := by
          rw [← hsos]
          exact (Import.new_congr ⟨e1, e2, e3, e4, e5, e6, e7⟩).symm
        cases hI : Import.new s1.bind_info libs segments s1.start_of_sequence with
        | error e =>
          refine Or.inl ⟨e, ?_, ?_⟩
          · rw [step_do_bind_uleb_eq hb1 h10]
            simp only [hI]
          · rw [step_do_bind_uleb_eq hb2 h10]
            simp only [hN, hI]
        | ok imp =>
          refine Or.inr
            ⟨{ s1 with
                 imports := s1.imports ++ [imp],
                 bind_info :=
                   { s1.bind_info with
                       seg_offset :=
                         wrappingAdd (wrappingAdd s1.bind_info.seg_offset (p.1 % U64LIMIT))
                           ctxSize },
                 offset := s1.offset + 1 + p.2 },
             { s2 with
                 imports := s2.imports ++ [imp],
                 bind_info :=
                   { s2.bind_info with
                       seg_offset :=
                         wrappingAdd (wrappingAdd s2.bind_info.seg_offset (p.1 % U64LIMIT))
                           ctxSize },
                 offset := s1.offset + 1 + p.2 },
             ?_, ?_, rfl, rfl, ⟨e1, by rw [e2], e3, e4, e5, e6, e7⟩, hsos, by rw [himp]⟩
          · rw [step_do_bind_uleb_eq hb1 h10]
            simp only [hI, hr1]
          · rw [step_do_bind_uleb_eq hb2 h10, hoff]
            simp only [hN, hI, hr2]
    by_cases h11 : b &&& BIND_OPCODE_MASK = BIND_OPCODE_DO_BIND_ADD_ADDR_IMM_SCALED
    · have hc1 : ¬(b &&& BIND_OPCODE_MASK = BIND_OPCODE_SET_DYLIB_ORDINAL_ULEB ∨
          b &&& BIND_OPCODE_MASK = BIND_OPCODE_SET_ADDEND_SLEB ∨
          b &&& BIND_OPCODE_MASK = BIND_OPCODE_SET_SEGMENT_AND_OFFSET_ULEB ∨
          b &&& BIND_OPCODE_MASK = BIND_OPCODE_ADD_ADDR_ULEB ∨
          b &&& BIND_OPCODE_MASK = BIND_OPCODE_DO_BIND_ADD_ADDR_ULEB) := by rw [h11]; decide
      have hc2 : ¬(b &&& BIND_OPCODE_MASK = BIND_OPCODE_SET_SYMBOL_TRAILING_FLAGS_IMM) := by
        rw [h11]; decide
      have hc3 : ¬(b &&& BIND_OPCODE_MASK = BIND_OPCODE_DO_BIND_ULEB_TIMES_SKIPPING_ULEB) := by
        rw [h11]; decide
      rw [if_neg hc1, if_neg hc2, if_neg hc3] at hcons
      obtain rfl : s1.offset + 1 = off2 := Option.some.inj hcons
      have hN : Import.new s2.bind_info libs segments s2.start_of_sequence =
          Import.new s1.bind_info libs segments s1.start_of_sequence := by
        rw [← hsos]
        exact (Import.new_congr ⟨e1, e2, e3, e4, e5, e6, e7⟩).symm
      cases hI : Import.new s1.bind_info libs segments s1.start_of_sequence with
      | error e =>
        refine Or.inl ⟨e, ?_, ?_⟩
        · rw [step_do_bind_scaled_eq hb1 h11]
          simp only [hI]
        · rw [step_do_bind_scaled_eq hb2 h11]
          simp only [hN, hI]
      | ok imp =>
        refine Or.inr
          ⟨{ s1 with
               imports := s1.imports ++ [imp],
               bind_info :=
                 { s1.bind_info with
                     seg_offset :=
                       wrappingAdd
                         (wrappingAdd s1.bind_info.seg_offset
                           ((b &&& BIND_IMMEDIATE_MASK) * ctxSize)) ctxSize },
               offset := s1.offset + 1 },
           { s2 with
               imports := s2.imports ++ [imp],
               bind_info :=
                 { s2.bind_info with
                     seg_offset :=
                       wrappingAdd
                         (wrappingAdd s2.bind_info.seg_offset
                           ((b &&& BIND_IMMEDIATE_MASK) * ctxSize)) ctxSize },
               offset := s2.offset + 1 },
           ?_, ?_, rfl, by rw [hoff], ⟨e1, by rw [e2], e3, e4, e5, e6, e7⟩, hsos,
           by rw [himp]⟩
        · rw [step_do_bind_scaled_eq hb1 h11]
          simp only [hI]
        · rw [step_do_bind_scaled_eq hb2 h11]
          simp only [hN, hI]
    by_cases h12 : b &&& BIND_OPCODE_MASK = BIND_OPCODE_DO_BIND_ULEB_TIMES_SKIPPING_ULEB
    · have hc1 : ¬(b &&& BIND_OPCODE_MASK = BIND_OPCODE_SET_DYLIB_ORDINAL_ULEB ∨
          b &&& BIND_OPCODE_MASK = BIND_OPCODE_SET_ADDEND_SLEB ∨
          b &&& BIND_OPCODE_MASK = BIND_OPCODE_SET_SEGMENT_AND_OFFSET_ULEB ∨
          b &&& BIND_OPCODE_MASK = BIND_OPCODE_ADD_ADDR_ULEB ∨
          b &&& BIND_OPCODE_MASK = BIND_OPCODE_DO_BIND_ADD_ADDR_ULEB) := by rw [h12]; decide
      have hc2 : ¬(b &&& BIND_OPCODE_MASK = BIND_OPCODE_SET_SYMBOL_TRAILING_FLAGS_IMM) := by
        rw [h12]; decide
      rw [if_neg hc1, if_neg hc2, if_pos h12] at hcons
      cases hu1 : ulebBytes (data1.drop (s1.offset + 1)) with
      | none => simp only [hu1] at hcons; cases hcons
      | some p1 =>
        simp only [hu1] at hcons
        cases hu2 : ulebBytes (data1.drop (s1.offset + 1 + p1.2)) with
        | none => simp only [hu2] at hcons; cases hcons
        | some p2 =>
          simp only [hu2] at hcons
          obtain rfl : s1.offset + 1 + p1.2 + p2.2 = off2 := Option.some.inj hcons
          have hr1a : ulebRead data1 (s1.offset + 1) =
              .ok (p1.1 % U64LIMIT, s1.offset + 1 + p1.2) := by
            unfold ulebRead; rw [hu1]
          have hr2a : ulebRead data2 (s1.offset + 1) =
              .ok (p1.1 % U64LIMIT, s1.offset + 1 + p1.2) :=
            ulebRead_congr hr1a fun q hq1 hq2 => hagree q (by omega) (by omega)
          have hr1b : ulebRead data1 (s1.offset + 1 + p1.2) =
              .ok (p2.1 % U64LIMIT, s1.offset + 1 + p1.2 + p2.2) := by
            unfold ulebRead; rw [hu2]
          have hr2b : ulebRead data2 (s1.offset + 1 + p1.2) =
              .ok (p2.1 % U64LIMIT, s1.offset + 1 + p1.2 + p2.2) :=
            ulebRead_congr hr1b fun q hq1 hq2 => hagree q (by omega) hq2
          cases hca : checkedAdd (p2.1 % U64LIMIT) ctxSize with
          | error e =>
            refine Or.inl ⟨e, ?_, ?_⟩
            · rw [step_do_bind_times_eq hb1 h12]
              simp only [hr1a, hr1b, hca]
            · rw [step_do_bind_times_eq hb2 h12, hoff]
              simp only [hr2a, hr2b, hca]
          | ok sps =>
            rcases @doBindLoop_congr libs segments s1.start_of_sequence sps
                (p1.1 % U64LIMIT) s1.bind_info s2.bind_info s1.imports
                ⟨e1, e2, e3, e4, e5, e6, e7⟩ with
              ⟨e, hL1, hL2⟩ | ⟨c1, c2, out, hL1, hL2, hLrec⟩
            · refine Or.inl ⟨e, ?_, ?_⟩
              · rw [step_do_bind_times_eq hb1 h12]
                simp only [hr1a, hr1b, hca, hL1]
              · rw [step_do_bind_times_eq hb2 h12, hoff, ← hsos, ← himp]
                simp only [hr2a, hr2b, hca, hL2]
            · refine Or.inr
                ⟨{ s1 with
                     bind_info := c1, imports := out,
                     offset := s1.offset + 1 + p1.2 + p2.2 },
                 { s2 with
                     bind_info := c2, imports := out,
                     offset := s1.offset + 1 + p1.2 + p2.2 },
                 ?_, ?_, rfl, rfl, hLrec, hsos, rfl⟩
              · rw [step_do_bind_times_eq hb1 h12]
                simp only [hr1a, hr1b, hca, hL1]
              · rw [step_do_bind_times_eq hb2 h12, hoff, ← hsos, ← himp]
                simp only [hr2a, hr2b, hca, hL2]
    have hc1 : ¬(b &&& BIND_OPCODE_MASK = BIND_OPCODE_SET_DYLIB_ORDINAL_ULEB ∨
        b &&& BIND_OPCODE_MASK = BIND_OPCODE_SET_ADDEND_SLEB ∨
        b &&& BIND_OPCODE_MASK = BIND_OPCODE_SET_SEGMENT_AND_OFFSET_ULEB ∨
        b &&& BIND_OPCODE_MASK = BIND_OPCODE_ADD_ADDR_ULEB ∨
        b &&& BIND_OPCODE_MASK = BIND_OPCODE_DO_BIND_ADD_ADDR_ULEB) := by
      push_neg
      exact ⟨h2, h6, h7, h8, h10⟩
    rw [if_neg hc1, if_neg h4, if_neg h12] at hcons
    obtain rfl : s1.offset + 1 = off2 := Option.some.inj hcons
    have hnotin : b &&& BIND_OPCODE_MASK ∉ ([BIND_OPCODE_DONE,
        BIND_OPCODE_SET_DYLIB_ORDINAL_IMM, BIND_OPCODE_SET_DYLIB_ORDINAL_ULEB,
        BIND_OPCODE_SET_DYLIB_SPECIAL_IMM, BIND_OPCODE_SET_SYMBOL_TRAILING_FLAGS_IMM,
        BIND_OPCODE_SET_TYPE_IMM, BIND_OPCODE_SET_ADDEND_SLEB,
        BIND_OPCODE_SET_SEGMENT_AND_OFFSET_ULEB, BIND_OPCODE_ADD_ADDR_ULEB,
        BIND_OPCODE_DO_BIND, BIND_OPCODE_DO_BIND_ADD_ADDR_ULEB,
        BIND_OPCODE_DO_BIND_ADD_ADDR_IMM_SCALED,
        BIND_OPCODE_DO_BIND_ULEB_TIMES_SKIPPING_ULEB] : List Nat) := by
      simp only [List.mem_cons, List.not_mem_nil, or_false, not_or]
      exact ⟨h0, h1, h2, h3, h4, h5, h6, h7, h8, h9, h10, h11, h12⟩
    exact Or.inr ⟨_, _, step_noop_eq hb1 hnotin, step_noop_eq hb2 hnotin, rfl,
      by rw [hoff], ⟨e1, e2, e3, e4, e5, e6, e7⟩, hsos, himp⟩

/-- Lockstep equivalence of a whole pass over `StreamEquiv` streams. -/
theorem runFuel_equiv {data1 data2 : List Nat} {libs : List String} {segments : List Segment}
    {ctxSize : Nat} {is_lazy : Bool} {location : BindRange} :
    ∀ (fuel : Nat) {s1 s2 : RunState},
      StreamEquiv data1 data2 location.stop s1.offset →
      s2.offset = s1.offset →
      RecordEquiv s1.bind_info s2.bind_info →
      s1.start_of_sequence = s2.start_of_sequence →
      s1.imports = s2.imports →
      ResultEquiv (runFuel data1 libs segments ctxSize is_lazy location fuel s1)
                  (runFuel data2 libs segments ctxSize is_lazy location fuel s2) := by
  intro fuel
  induction fuel with
  | zero =>
    intro s1 s2 hse hoff hrec hsos himp
    unfold runFuel
    rw [hoff]
    by_cases hlt : s1.offset < location.stop
    · rw [if_pos hlt, if_pos hlt]
      exact rfl
    · rw [if_neg hlt, if_neg hlt]
      exact ⟨hrec, hoff.symm, hsos, himp⟩
  | succ fuel ih =>
    intro s1 s2 hse hoff hrec hsos himp
    unfold runFuel
    rw [hoff]
    by_cases hlt : s1.offset < location.stop
    · rw [if_pos hlt, if_pos hlt]
      cases hse with
      | done off hstop => omega
      | immDiff off b1 b2 hlt2 hb1 hb2 hhi hsel hnext =>
        have hb2o : data2[s2.offset]? = some b2 := by rw [hoff]; exact hb2
        rcases hsel with hsel | hsel
        · have hsel2 : b2 &&& BIND_OPCODE_MASK = BIND_OPCODE_SET_DYLIB_SPECIAL_IMM := by
            rw [← hhi]; exact hsel
          rw [step_special_imm_eq hb1 hsel, step_special_imm_eq hb2o hsel2]
          simp only []
          exact ih hnext (by rw [hoff]) ⟨hrec.1, hrec.2.1, hrec.2.2.1, hrec.2.2.2.1,
            hrec.2.2.2.2.1, hrec.2.2.2.2.2.1, hrec.2.2.2.2.2.2⟩ hsos himp
        · have hsel2 : b2 &&& BIND_OPCODE_MASK = BIND_OPCODE_SET_TYPE_IMM := by
            rw [← hhi]; exact hsel
          rw [step_type_imm_eq hb1 hsel, step_type_imm_eq hb2o hsel2]
          simp only []
          exact ih hnext (by rw [hoff]) ⟨hrec.1, hrec.2.1, hrec.2.2.1, hrec.2.2.2.1,
            hrec.2.2.2.2.1, hrec.2.2.2.2.2.1, hrec.2.2.2.2.2.2⟩ hsos himp
      | sameChunk off off2c hlt2 hcons hagree hnext =>
        rcases step_congr hoff hrec hsos himp hcons hagree with
          ⟨e, hs1, hs2⟩ | ⟨t1, t2, hs1, hs2, ht1off, ht2off, htrec, htsos, htimp⟩
        · rw [hs1, hs2]
          exact rfl
        · rw [hs1, hs2]
          exact ih (by rw [ht1off]; exact hnext) (by rw [ht1off, ht2off]) htrec htsos htimp
    · rw [if_neg hlt, if_neg hlt]
      exact ⟨hrec, hoff.symm, hsos, himp⟩

/-- A pass over two `StreamEquiv` streams returns literally equal results. -/
theorem run_equiv {data1 data2 : List Nat} {libs : List String} {segments : List Segment}
    {ctxSize : Nat} {is_lazy : Bool} {location : BindRange} {prior : List Import}
    (hse : StreamEquiv data1 data2 location.stop location.start) :
    run data1 libs segments ctxSize is_lazy location prior =
    run data2 libs segments ctxSize is_lazy location prior := by
  unfold run
  have h := @runFuel_equiv data1 data2 libs segments ctxSize is_lazy location
      (location.stop - location.start)
      { bind_info := BindInformation.new is_lazy, offset := location.start,
        start_of_sequence := 0, imports := prior }
      { bind_info := BindInformation.new is_lazy, offset := location.start,
        start_of_sequence := 0, imports := prior }
      hse rfl (RecordEquiv.refl _) rfl rfl
  cases hr1 : runFuel data1 libs segments ctxSize is_lazy location
      (location.stop - location.start)
      { bind_info := BindInformation.new is_lazy, offset := location.start,
        start_of_sequence := 0, imports := prior } with
  | error e1 =>
    cases hr2 : runFuel data2 libs segments ctxSize is_lazy location
        (location.stop - location.start)
        { bind_info := BindInformation.new is_lazy, offset := location.start,
          start_of_sequence := 0, imports := prior } with
    | error e2 =>
      rw [hr1, hr2] at h
      have he : e1 = e2 := h
      rw [he]
    | ok t2 =>
      rw [hr1, hr2] at h
      exact absurd h (fun hf => hf)
  | ok t1 =>
    cases hr2 : runFuel data2 libs segments ctxSize is_lazy location
        (location.stop - location.start)
        { bind_info := BindInformation.new is_lazy, offset := location.start,
          start_of_sequence := 0, imports := prior } with
    | error e2 =>
      rw [hr1, hr2] at h
      exact absurd h (fun hf => hf)
    | ok t2 =>
      rw [hr1, hr2] at h
      obtain ⟨-, -, -, himp⟩ := h
      simp only [himp]

/-- C10: two well-formed streams that differ only in the immediates carried by
`SET_TYPE_IMM` and `SET_DYLIB_SPECIAL_IMM` opcode bytes (the lockstep relation
`StreamEquiv`, over both the eager and the lazy range) produce identical
results from the whole import extraction: the record's `bind_type` and
`special_dylib` fields are written by those opcodes but never read when an
`Import` is materialized. -/
theorem c10_type_and_special_dylib_immaterial {data1 data2 : List Nat}
    {loc lazy_loc : BindRange} {libs : List String} {segments : List Segment} {ctxSize : Nat}
    (h1 : StreamEquiv data1 data2 loc.stop loc.start)
    (h2 : StreamEquiv data1 data2 lazy_loc.stop lazy_loc.start) :
    BindInterpreter.imports ⟨data1, loc, lazy_loc⟩ libs segments ctxSize =
    BindInterpreter.imports ⟨data2, loc, lazy_loc⟩ libs segments ctxSize := by
  unfold BindInterpreter.imports
  simp only []
  rw [run_equiv h1]
  cases hr : run data2 libs segments ctxSize false loc [] with
  | error e => rfl
  | ok l1 =>
    simp only []
    rw [run_equiv h2]

/-- Witness for C10: the one-byte eager streams `SET_TYPE_IMM(1)` (0x51) and
`SET_TYPE_IMM(2)` (0x52) with an empty lazy range extract identical imports. -/
theorem c10_witness :
    StreamEquiv [0x51] [0x52] 1 0 ∧ StreamEquiv [0x51] [0x52] 1 1 ∧
    BindInterpreter.imports ⟨[0x51], ⟨0, 1⟩, ⟨1, 1⟩⟩ ["a"] [] 8 =
      BindInterpreter.imports ⟨[0x52], ⟨0, 1⟩, ⟨1, 1⟩⟩ ["a"] [] 8 :=
  ⟨StreamEquiv.immDiff 0 0x51 0x52 (by decide) rfl rfl (by decide) (Or.inr (by decide))
     (StreamEquiv.done 1 (by decide)),
   StreamEquiv.done 1 (by decide),
   @c10_type_and_special_dylib_immaterial [0x51] [0x52] ⟨0, 1⟩ ⟨1, 1⟩ ["a"] [] 8
     (StreamEquiv.immDiff 0 0x51 0x52 (by decide) rfl rfl (by decide) (Or.inr (by decide))
       (StreamEquiv.done 1 (by decide)))
     (StreamEquiv.done 1 (by decide))⟩


/-- A successful ULEB128 decode consumes at least one byte. -/
theorem ulebBytes_pos : ∀ {l : List Nat} {v n : Nat}, ulebBytes l = some (v, n) → 0 < n := by
  intro l
  induction l with
  | nil => intro v n h; cases h
  | cons b rest ih =>
    intro v n h
    unfold ulebBytes at h
    by_cases hc : b &&& 0x80 = 0
    · rw [if_pos hc] at h
      have := congrArg Prod.snd (Option.some.inj h)
      omega
    · rw [if_neg hc] at h
      cases hr : ulebBytes rest with
      | none => rw [hr] at h; cases h
      | some q =>
        simp only [hr] at h
        have := congrArg Prod.snd (Option.some.inj h)
        omega

/-- A successful ULEB128 read advances the cursor. -/
theorem ulebRead_lt {data : List Nat} {o v o2 : Nat} (h : ulebRead data o = .ok (v, o2)) :
    o < o2 := by
  unfold ulebRead at h
  cases hu : ulebBytes (data.drop o) with
  | none => rw [hu] at h; cases h
  | some p =>
    obtain ⟨w, n⟩ := p
    rw [hu] at h
    have := congrArg Prod.snd (Except.ok.inj h)
    have := ulebBytes_pos hu
    omega

/-- A successful SLEB128 read advances the cursor. -/
theorem slebRead_lt {data : List Nat} {o : Nat} {z : Int} {o2 : Nat}
    (h : slebRead data o = .ok (z, o2)) : o < o2 := by
  unfold slebRead at h
  cases hu : ulebBytes (data.drop o) with
  | none => rw [hu] at h; cases h
  | some p =>
    obtain ⟨w, n⟩ := p
    rw [hu] at h
    have := congrArg Prod.snd (Except.ok.inj h)
    have := ulebBytes_pos hu
    omega

/-- Every successful loop iteration strictly advances the cursor, so a pass
over a range of `n` bytes performs at most `n` iterations. -/
theorem step_offset_lt {data : List Nat} {libs : List String} {segments : List Segment}
    {ctxSize : Nat} {is_lazy : Bool} {location : BindRange} {s s2 : RunState}
    (hstep : step data libs segments ctxSize is_lazy location s = .ok s2) :
    s.offset < s2.offset := by
  cases hb : data[s.offset]? with
  | none =>
    unfold step readByte at hstep
    rw [hb] at hstep
    cases hstep
  | some b =>
    by_cases h0 : b &&& BIND_OPCODE_MASK = BIND_OPCODE_DONE
    · rw [step_done_eq hb h0] at hstep
      obtain rfl : _ = s2 := Except.ok.inj hstep
      exact Nat.lt_succ_self _
    by_cases h1 : b &&& BIND_OPCODE_MASK = BIND_OPCODE_SET_DYLIB_ORDINAL_IMM
    · rw [step_ordinal_imm_eq hb h1] at hstep
      obtain rfl : _ = s2 := Except.ok.inj hstep
      exact Nat.lt_succ_self _
    by_cases h2 : b &&& BIND_OPCODE_MASK = BIND_OPCODE_SET_DYLIB_ORDINAL_ULEB
    · rw [step_ordinal_uleb_eq hb h2] at hstep
      cases hu : ulebRead data (s.offset + 1) with
      | error e => simp only [hu] at hstep; cases hstep
      | ok v =>
        obtain ⟨va, o2⟩ := v
        simp only [hu] at hstep
        obtain rfl : _ = s2 := Except.ok.inj hstep
        have := ulebRead_lt hu
        show s.offset < o2
        omega
    by_cases h3 : b &&& BIND_OPCODE_MASK = BIND_OPCODE_SET_DYLIB_SPECIAL_IMM
    · rw [step_special_imm_eq hb h3] at hstep
      obtain rfl : _ = s2 := Except.ok.inj hstep
      exact Nat.lt_succ_self _
    by_cases h4 : b &&& BIND_OPCODE_MASK = BIND_OPCODE_SET_SYMBOL_TRAILING_FLAGS_IMM
    · rw [step_symbol_eq hb h4] at hstep
      cases hs : strRead data (s.offset + 1) with
      | error e => simp only [hs] at hstep; cases hstep
      | ok nm =>
        simp only [hs] at hstep
        obtain rfl : _ = s2 := Except.ok.inj hstep
        show s.offset < s.offset + 1 + nm.length + 1
        omega
    by_cases h5 : b &&& BIND_OPCODE_MASK = BIND_OPCODE_SET_TYPE_IMM
    · rw [step_type_imm_eq hb h5] at hstep
      obtain rfl : _ = s2 := Except.ok.inj hstep
      exact Nat.lt_succ_self _
    by_cases h6 : b &&& BIND_OPCODE_MASK = BIND_OPCODE_SET_ADDEND_SLEB
    · rw [step_addend_eq hb h6] at hstep
      cases hu : slebRead data (s.offset + 1) with
      | error e => simp only [hu] at hstep; cases hstep
      | ok v =>
        obtain ⟨va, o2⟩ := v
        simp only [hu] at hstep
        obtain rfl : _ = s2 := Except.ok.inj hstep
        have := slebRead_lt hu
        show s.offset < o2
        omega
    by_cases h7 : b &&& BIND_OPCODE_MASK = BIND_OPCODE_SET_SEGMENT_AND_OFFSET_ULEB
    · rw [step_segment_eq hb h7] at hstep
      cases hu : ulebRead data (s.offset + 1) with
      | error e => simp only [hu] at hstep; cases hstep
      | ok v =>
        obtain ⟨va, o2⟩ := v
        simp only [hu] at hstep
        obtain rfl : _ = s2 := Except.ok.inj hstep
        have := ulebRead_lt hu
        show s.offset < o2
        omega
    by_cases h8 : b &&& BIND_OPCODE_MASK = BIND_OPCODE_ADD_ADDR_ULEB
    · rw [step_add_addr_eq hb h8] at hstep
      cases hu : ulebRead data (s.offset + 1) with
      | error e => simp only [hu] at hstep; cases hstep
      | ok v =>
        obtain ⟨va, o2⟩ := v
        simp only [hu] at hstep
        obtain rfl : _ = s2 := Except.ok.inj hstep
        have := ulebRead_lt hu
        show s.offset < o2
        omega
    by_cases h9 : b &&& BIND_OPCODE_MASK = BIND_OPCODE_DO_BIND
    · rw [step_do_bind_eq hb h9] at hstep
      cases hI : Import.new s.bind_info libs segments s.start_of_sequence with
      | error e => simp only [hI] at hstep; cases hstep
      | ok imp =>
        simp only [hI] at hstep
        obtain rfl : _ = s2 := Except.ok.inj hstep
        exact Nat.lt_succ_self _
    by_cases h10 : b &&& BIND_OPCODE_MASK = BIND_OPCODE_DO_BIND_ADD_ADDR_ULEB
    · rw [step_do_bind_uleb_eq hb h10] at hstep
      cases hI : Import.new s.bind_info libs segments s.start_of_sequence with
      | error e => simp only [hI] at hstep; cases hstep
      | ok imp =>
        simp only [hI] at hstep
        cases hu : ulebRead data (s.offset + 1) with
        | error e => simp only [hu] at hstep; cases hstep
        | ok v =>
          obtain ⟨va, o2⟩ := v
          simp only [hu] at hstep
          obtain rfl : _ = s2 := Except.ok.inj hstep
          have := ulebRead_lt hu
          show s.offset < o2
          omega
    by_cases h11 : b &&& BIND_OPCODE_MASK = BIND_OPCODE_DO_BIND_ADD_ADDR_IMM_SCALED
    · rw [step_do_bind_scaled_eq hb h11] at hstep
      cases hI : Import.new s.bind_info libs segments s.start_of_sequence with
      | error e => simp only [hI] at hstep; cases hstep
      | ok imp =>
        simp only [hI] at hstep
        obtain rfl : _ = s2 := Except.ok.inj hstep
        exact Nat.lt_succ_self _
    by_cases h12 : b &&& BIND_OPCODE_MASK = BIND_OPCODE_DO_BIND_ULEB_TIMES_SKIPPING_ULEB
    · rw [step_do_bind_times_eq hb h12] at hstep
      cases hu1 : ulebRead data (s.offset + 1) with
      | error e => simp only [hu1] at hstep; cases hstep
      | ok v1 =>
        obtain ⟨va1, o1⟩ := v1
        simp only [hu1] at hstep
        cases hu2 : ulebRead data o1 with
        | error e => simp only [hu2] at hstep; cases hstep
        | ok v2 =>
          obtain ⟨va2, o2⟩ := v2
          simp only [hu2] at hstep
          cases hca : checkedAdd va2 ctxSize with
          | error e => simp only [hca] at hstep; cases hstep
          | ok sps =>
            simp only [hca] at hstep
            cases hL : doBindLoop libs segments s.start_of_sequence sps va1
                s.bind_info s.imports with
            | error e => simp only [hL] at hstep; cases hstep
            | ok q =>
              simp only [hL] at hstep
              obtain rfl : _ = s2 := Except.ok.inj hstep
              have ha := ulebRead_lt hu1
              have hb2 := ulebRead_lt hu2
              show s.offset < o2
              omega
    have hnotin : b &&& BIND_OPCODE_MASK ∉ ([BIND_OPCODE_DONE,
        BIND_OPCODE_SET_DYLIB_ORDINAL_IMM, BIND_OPCODE_SET_DYLIB_ORDINAL_ULEB,
        BIND_OPCODE_SET_DYLIB_SPECIAL_IMM, BIND_OPCODE_SET_SYMBOL_TRAILING_FLAGS_IMM,
        BIND_OPCODE_SET_TYPE_IMM, BIND_OPCODE_SET_ADDEND_SLEB,
        BIND_OPCODE_SET_SEGMENT_AND_OFFSET_ULEB, BIND_OPCODE_ADD_ADDR_ULEB,
        BIND_OPCODE_DO_BIND, BIND_OPCODE_DO_BIND_ADD_ADDR_ULEB,
        BIND_OPCODE_DO_BIND_ADD_ADDR_IMM_SCALED,
        BIND_OPCODE_DO_BIND_ULEB_TIMES_SKIPPING_ULEB] : List Nat) := by
      simp only [List.mem_cons, List.not_mem_nil, or_false, not_or]
      exact ⟨h0, h1, h2, h3, h4, h5, h6, h7, h8, h9, h10, h11, h12⟩
    rw [step_noop_eq hb hnotin] at hstep
    obtain rfl : _ = s2 := Except.ok.inj hstep
    exact Nat.lt_succ_self _

/-- Fidelity of the fuel-indexed loop: adding fuel beyond
`location.stop - s.offset` never changes the result, so `run`'s fuel of
`location.stop - location.start` computes exactly the source's while loop and
the fuel-exhaustion branch is unreachable. -/
theorem runFuel_succ_eq {data : List Nat} {libs : List String} {segments : List Segment}
    {ctxSize : Nat} {is_lazy : Bool} {location : BindRange} :
    ∀ (fuel : Nat) (s : RunState), location.stop - s.offset ≤ fuel →
      runFuel data libs segments ctxSize is_lazy location (fuel + 1) s =
      runFuel data libs segments ctxSize is_lazy location fuel s := by
  intro fuel
  induction fuel with
  | zero =>
    intro s h
    unfold runFuel
    rw [if_neg (by omega), if_neg (by omega)]
  | succ fuel ih =>
    intro s h
    unfold runFuel
    by_cases hlt : s.offset < location.stop
    · rw [if_pos hlt, if_pos hlt]
      cases hstep : step data libs segments ctxSize is_lazy location s with
      | error e => rfl
      | ok s2 =>
        have hlt2 := step_offset_lt hstep
        exact ih s2 (by omega)
    · rw [if_neg hlt, if_neg hlt]

/-- The loop's result is independent of any sufficient fuel bound. -/
theorem runFuel_fuel_irrelevant {data : List Nat} {libs : List String}
    {segments : List Segment} {ctxSize : Nat} {is_lazy : Bool} {location : BindRange} :
    ∀ (k fuel : Nat) (s : RunState), location.stop - s.offset ≤ fuel →
      runFuel data libs segments ctxSize is_lazy location (fuel + k) s =
      runFuel data libs segments ctxSize is_lazy location fuel s := by
  intro k
  induction k with
  | zero => intro fuel s h; rfl
  | succ k ih =>
    intro fuel s h
    have he : fuel + (k + 1) = (fuel + k) + 1 := by omega
    rw [he, runFuel_succ_eq (fuel + k) s (by omega), ih fuel s h]
